import Mathlib

/-!
Verification of `github.com/yetist/middleware/i18n`

A shallow embedding of `i18n.go` (the language-resolution middleware) and
theorems about it.

Modelling conventions:

* A Go `string` is a sequence of bytes: `GoString := List Nat`, every element
  standing for one byte (a value below 256).  `len(s)` is `s.length`.
* A Go slice expression that may fall outside the string (`s[:hi]`) is
  modelled by a function into `Option`; `none` is the run-time panic
  "slice bounds out of range".
* Library functions the package calls (`strings`, `unicode/utf8`, `net/url`,
  `sync`) are transcribed from the Go standard library.  The Unicode case
  tables consulted by `unicode.ToLower` / `unicode.ToUpper` for runes above
  `MaxASCII` are data outside the package and are taken as a parameter
  (`CaseTables`); the ASCII fast path of both functions is code and is
  modelled as such.
* The HTTP request is seen through the accessors the handler calls
  (`FormValue`, `Cookie`, `Header.Get`, `RequestURI`).  The effects of one
  run of the handler (calls into gettext, `Set-Cookie` headers, the value given
  to `c.Map`, the call of `http.Redirect`) are collected in a `Result`.
-/

namespace i18n

/-! ## Go strings -/

/-- A Go string: its bytes. -/
abbrev GoString := List Nat

/-- All elements are bytes. -/
def IsBytes (s : GoString) : Prop := ∀ b ∈ s, b < 256

/-- All elements are ASCII bytes (below `utf8.RuneSelf`). -/
def IsASCII (s : GoString) : Prop := ∀ b ∈ s, b < 128

instance (s : GoString) : Decidable (IsBytes s) := by
  unfold IsBytes; infer_instance

instance (s : GoString) : Decidable (IsASCII s) := by
  unfold IsASCII; infer_instance

/-- The Go slice expression `s[:hi]`; `none` is the panic raised when `hi` is
negative or exceeds `len(s)`. -/
def sliceTo (s : GoString) (hi : Int) : Option GoString :=
  if 0 ≤ hi ∧ hi ≤ (s.length : Int) then some (s.take hi.toNat) else none

/-- Position of the first occurrence of the byte `c` in `s`, counting from `i`;
`-1` when there is none. -/
def indexFrom (c : Nat) : GoString → Nat → Int
  | [], _ => -1
  | b :: rest, i => if b = c then (i : Int) else indexFrom c rest (i + 1)

/-- The call `strings.Index(s, sep)` for a one-byte `sep` (the package only
searches for `"-"`, `"_"` and `"?"`): the index of the first `c`, or `-1`. -/
def stringsIndex (s : GoString) (c : Nat) : Int := indexFrom c s 0

/-- The call `strings.TrimSuffix(s, "/")`. -/
def trimSuffixSlash (s : GoString) : GoString :=
  if s.getLast? = some 47 then s.dropLast else s

/-- The call `strings.TrimPrefix(s, "/")`. -/
def trimPrefixSlash (s : GoString) : GoString :=
  match s with
  | 47 :: rest => rest
  | _ => s

/-! ## `unicode/utf8` and `unicode` -/

/-- The rune `utf8.RuneError` (U+FFFD). -/
def RuneError : Nat := 0xFFFD

/-- A UTF-8 continuation byte (`0x80 ..= 0xBF`). -/
def isCont (b : Nat) : Bool := decide (0x80 ≤ b) && decide (b ≤ 0xBF)

/-- Lowest second byte accepted after the lead byte `b0` (the `acceptRanges`
table of `unicode/utf8`). -/
def acceptLo (b0 : Nat) : Nat :=
  if b0 = 0xE0 then 0xA0 else if b0 = 0xF0 then 0x90 else 0x80

/-- Highest second byte accepted after the lead byte `b0`. -/
def acceptHi (b0 : Nat) : Nat :=
  if b0 = 0xED then 0x9F else if b0 = 0xF4 then 0x8F else 0xBF

/-- The call `utf8.DecodeRuneInString(b0 :: rest)`: the rune and its width in
bytes.  Invalid or truncated encodings give `(RuneError, 1)`. -/
def decodeRune (b0 : Nat) (rest : GoString) : Nat × Nat :=
  if b0 < 0x80 then (b0, 1)
  else if b0 < 0xC2 then (RuneError, 1)
  else if b0 < 0xE0 then
    match rest with
    | b1 :: _ =>
      if isCont b1 then ((b0 % 32) * 64 + b1 % 64, 2) else (RuneError, 1)
    | _ => (RuneError, 1)
  else if b0 < 0xF0 then
    match rest with
    | b1 :: b2 :: _ =>
      if acceptLo b0 ≤ b1 ∧ b1 ≤ acceptHi b0 ∧ isCont b2 then
        ((b0 % 16) * 4096 + (b1 % 64) * 64 + b2 % 64, 3)
      else (RuneError, 1)
    | _ => (RuneError, 1)
  else if b0 < 0xF5 then
    match rest with
    | b1 :: b2 :: b3 :: _ =>
      if acceptLo b0 ≤ b1 ∧ b1 ≤ acceptHi b0 ∧ isCont b2 ∧ isCont b3 then
        ((b0 % 8) * 262144 + (b1 % 64) * 4096 + (b2 % 64) * 64 + b3 % 64, 4)
      else (RuneError, 1)
    | _ => (RuneError, 1)
  else (RuneError, 1)

/-- The call `utf8.AppendRune(nil, r)`: the UTF-8 encoding of `r`; surrogates and
values above U+10FFFF are encoded as `RuneError`.  It is also the conversion
`string(r)` of an integer to a string. -/
def encodeRune (r : Nat) : GoString :=
  if r < 0x80 then [r]
  else if r < 0x800 then [0xC0 + r / 64, 0x80 + r % 64]
  else if 0x10FFFF < r ∨ (0xD800 ≤ r ∧ r ≤ 0xDFFF) then [0xEF, 0xBF, 0xBD]
  else if r < 0x10000 then [0xE0 + r / 4096, 0x80 + r / 64 % 64, 0x80 + r % 64]
  else [0xF0 + r / 262144, 0x80 + r / 4096 % 64, 0x80 + r / 64 % 64, 0x80 + r % 64]

/-- A Unicode scalar value: what `utf8.ValidRune` accepts. -/
def ValidRune (r : Nat) : Prop := r ≤ 0x10FFFF ∧ ¬ (0xD800 ≤ r ∧ r ≤ 0xDFFF)

/-- The Unicode case tables: what `unicode.To(LowerCase, r)` and
`unicode.To(UpperCase, r)` return for a rune above `unicode.MaxASCII`. -/
structure CaseTables where
  lower : Nat → Nat
  upper : Nat → Nat

/-- The function `unicode.ToLower`. -/
def unicodeToLower (u : CaseTables) (r : Nat) : Nat :=
  if r ≤ 0x7F then (if 65 ≤ r ∧ r ≤ 90 then r + 32 else r) else u.lower r

/-- The function `unicode.ToUpper`. -/
def unicodeToUpper (u : CaseTables) (r : Nat) : Nat :=
  if r ≤ 0x7F then (if 97 ≤ r ∧ r ≤ 122 then r - 32 else r) else u.upper r

/-- Stability of the lower-case table, as the cookie round trip needs it: above
`MaxASCII`, the lower case of a valid rune is a valid rune, is not `_`, and is
its own lower case. -/
def LowerStable (u : CaseTables) : Prop :=
  ∀ r, 0x7F < r → ValidRune r →
    ValidRune (u.lower r) ∧ u.lower r ≠ 95 ∧ unicodeToLower u (u.lower r) = u.lower r

/-- The function `strings.Map(mapping, s)` for a mapping that never asks for a
rune to be dropped: `s` is read rune by rune (`for _, c := range s`, a byte that
starts no valid encoding being read as `RuneError`) and every rune is replaced
by the encoding of its image.  `skip` counts the bytes of the current rune still
to be passed over. -/
def mapRunes (mapping : Nat → Nat) : GoString → Nat → GoString
  | [], _ => []
  | _ :: rest, skip + 1 => mapRunes mapping rest skip
  | b0 :: rest, 0 =>
    encodeRune (mapping (decodeRune b0 rest).1) ++ mapRunes mapping rest ((decodeRune b0 rest).2 - 1)

/-- The function `strings.ToLower`. -/
def stringsToLower (u : CaseTables) (s : GoString) : GoString :=
  mapRunes (unicodeToLower u) s 0

/-- The function `strings.ToUpper`. -/
def stringsToUpper (u : CaseTables) (s : GoString) : GoString :=
  mapRunes (unicodeToUpper u) s 0

/-- The bytes of a Lean string literal (its UTF-8 encoding), to write Go string
constants. -/
def str (s : String) : GoString := s.toList.flatMap (fun c => encodeRune c.toNat)

/-! ## The locale codec (`i18n.go`, lines 207-232) -/

/-- The function `toLocale`: turns a language name (en-us) into a locale name
(en_US); with `to_lower` the last component is lower-cased (en_us). -/
def toLocale (u : CaseTables) (language : GoString) (to_lower : Bool) : GoString :=
  let p := stringsIndex language 45
  if p ≥ 0 then
    if to_lower then
      stringsToLower u (language.take p.toNat) ++ [95]
        ++ stringsToLower u (language.drop (p.toNat + 1))
    else
      if (language.drop (p.toNat + 1)).length > 2 then
        stringsToLower u (language.take p.toNat) ++ [95]
          ++ stringsToUpper u (encodeRune (language.getD (p.toNat + 1) 0))
          ++ stringsToLower u (language.drop (p.toNat + 2))
      else
        stringsToLower u (language.take p.toNat) ++ [95]
          ++ stringsToUpper u (language.drop (p.toNat + 1))
  else
    stringsToLower u language

/-- The function `toLanguage`: turns a locale name (en_US) into a language name
(en-us). -/
def toLanguage (u : CaseTables) (locale : GoString) : GoString :=
  let p := stringsIndex locale 95
  if p ≥ 0 then
    stringsToLower u (locale.take p.toNat) ++ [45]
      ++ stringsToLower u (locale.drop (p.toNat + 1))
  else
    stringsToLower u locale

/-! ## `net/url`: percent-encoding of a query component -/

/-- The function `ishex` of `net/url`. -/
def ishex (c : Nat) : Bool :=
  (decide (48 ≤ c) && decide (c ≤ 57)) || (decide (97 ≤ c) && decide (c ≤ 102))
    || (decide (65 ≤ c) && decide (c ≤ 70))

/-- The function `unhex` of `net/url`. -/
def unhex (c : Nat) : Nat :=
  if 48 ≤ c ∧ c ≤ 57 then c - 48
  else if 97 ≤ c ∧ c ≤ 102 then c - 97 + 10
  else if 65 ≤ c ∧ c ≤ 70 then c - 65 + 10
  else 0

/-- The digit `upperhex[n]` of `net/url` (`"0123456789ABCDEF"`). -/
def upperhex (n : Nat) : Nat := if n < 10 then 48 + n else 55 + n

/-- The function `shouldEscape(c, encodeQueryComponent)` of `net/url`: letters,
digits and `-`, `_`, `.`, `~` are kept, every other byte is escaped. -/
def shouldEscape (c : Nat) : Bool :=
  if (97 ≤ c ∧ c ≤ 122) ∨ (65 ≤ c ∧ c ≤ 90) ∨ (48 ≤ c ∧ c ≤ 57) then false
  else if c = 45 ∨ c = 95 ∨ c = 46 ∨ c = 126 then false
  else true

/-- The function `url.QueryEscape`: a space becomes `+`, a byte to escape becomes
`%XX` (upper-case hexadecimal), every other byte is copied. -/
def QueryEscape : GoString → GoString
  | [] => []
  | c :: rest =>
    if c = 32 then 43 :: QueryEscape rest
    else if shouldEscape c then 37 :: upperhex (c / 16) :: upperhex (c % 16) :: QueryEscape rest
    else c :: QueryEscape rest

/-- The function `url.QueryUnescape`: `%XX` becomes the byte `XX`, `+` becomes a
space; `none` is the `EscapeError` returned when a `%` is not followed by two
hexadecimal digits. -/
def QueryUnescape : GoString → Option GoString
  | [] => some []
  | c :: rest =>
    if c = 37 then
      match rest with
      | a :: b :: rest' =>
        if ishex a ∧ ishex b then (QueryUnescape rest').map (fun t => (unhex a * 16 + unhex b) :: t)
        else none
      | _ => none
    else if c = 43 then (QueryUnescape rest).map (fun t => 32 :: t)
    else (QueryUnescape rest).map (fun t => c :: t)

/-! ## The collaborators: request, gettext, `sync.Once`, cookies -/

/-- What the handler reads of an `*http.Request`. -/
structure Request where
  /-- The method `req.FormValue(key)`: the first value of the key in the query or
  the form body, `""` when there is none. -/
  FormValue : GoString → GoString
  /-- The method `req.Cookie(name)`: the value of the named cookie, `none` for
  `http.ErrNoCookie`. -/
  Cookie : GoString → Option GoString
  /-- The method `req.Header.Get(key)`. -/
  Header : GoString → GoString
  /-- The field `req.RequestURI`. -/
  RequestURI : GoString

/-- A call received by the gettext engine; the process-wide state of the engine
is the list of the calls made so far, oldest first. -/
inductive GettextCall
  | BindTextdomain (domain path : GoString) (data : List Nat)
  | Textdomain (domain : GoString)
  | SetLocale (locale : GoString)
  deriving DecidableEq, Repr

/-- The state of gettext: the calls it has received. -/
abbrev Gettext := List GettextCall

/-- Number of `gettext.BindTextdomain` calls received. -/
def bindCalls (g : Gettext) : Nat :=
  (g.filter (fun c => match c with | .BindTextdomain _ _ _ => true | _ => false)).length

/-- The value `sync.Once`. -/
structure Once where
  done : Bool

/-- The method `(*sync.Once).Do`: runs `f` on the state unless a previous `Do` of
this `Once` has run; returns the updated `Once` and state. -/
def Once.Do {σ : Type} (o : Once) (f : σ → σ) (s : σ) : Once × σ :=
  if o.done then (o, s) else ({ done := true }, f s)

/-- The struct `Options`. -/
structure Options where
  Domain : GoString := []
  Directory : GoString := []
  ZipData : List Nat := []
  DefaultLang : GoString := []
  SubURL : GoString := []
  CookieName : GoString := []
  Parameter : GoString := []
  Redirect : Bool := false
  TmplName : GoString := []
  deriving DecidableEq, Repr

/-- The struct `Locale`. -/
structure Locale where
  Lang : GoString
  deriving DecidableEq, Repr

/-- The fields of `http.Cookie` that `setCookie` fills. -/
structure Cookie where
  Name : GoString := []
  Value : GoString := []
  MaxAge : Int := 0
  Path : GoString := []
  Domain : GoString := []
  Secure : Bool := false
  HttpOnly : Bool := false
  deriving DecidableEq, Repr

/-- A value of type `interface{}` as `setCookie` inspects it. -/
inductive Any
  | int (v : Int)
  | int64 (v : Int)
  | int32 (v : Int)
  | string (s : GoString)
  | bool (b : Bool)
  | nil
  | other
  deriving DecidableEq, Repr

/-! ## The package (`i18n.go`) -/

def _LANGUAGE_COOKIE_NAME : GoString := str "_language"
def _LANGUAGE_PARAM_NAME : GoString := str "_language"
def _DEFAULT_DOMAIN : GoString := str "martini"
def _DEFAULT_DIRECTORY : GoString := str "locale"
def _DEFAULT_LANGUAGE : GoString := str "zh_CN"
def _DEFAULT_TMPL_NAME : GoString := str "trans"

/-- The function `prepareOptions` (lines 43-73): `opt` is the first element of
`options`, or the zero value; every statement of the body then rewrites one
field of `opt` from its own previous value, so the result is given field by
field. -/
def prepareOptions (options : List Options) : Options :=
  let opt : Options := match options with
    | o :: _ => o
    | [] => {}
  { Domain := if opt.Domain.length = 0 then _DEFAULT_DOMAIN else opt.Domain
    Directory := if opt.Directory.length = 0 then _DEFAULT_DIRECTORY else opt.Directory
    ZipData := opt.ZipData
    DefaultLang := if opt.DefaultLang.length = 0 then _DEFAULT_LANGUAGE else opt.DefaultLang
    SubURL := trimSuffixSlash opt.SubURL
    CookieName := if opt.CookieName.length = 0 then _LANGUAGE_COOKIE_NAME else opt.CookieName
    Parameter := if opt.Parameter.length = 0 then _LANGUAGE_PARAM_NAME else opt.Parameter
    Redirect := if !opt.Redirect then true else opt.Redirect
    TmplName := if opt.TmplName.length = 0 then _DEFAULT_TMPL_NAME else opt.TmplName }

/-- The function `initLocale` (lines 87-94): a `sync.Once` declared in the body
runs the binding of the catalog. -/
def initLocale (opt : Options) (g : Gettext) : Gettext :=
  let once : Once := { done := false }
  let onceBody : Gettext → Gettext := fun g =>
    g ++ [GettextCall.BindTextdomain opt.Domain opt.Directory opt.ZipData,
          GettextCall.Textdomain opt.Domain]
  (once.Do onceBody g).2

/-- An `error` returned by `getCookie`. -/
inductive GoError
  | ErrNoCookie
  | EscapeError
  deriving DecidableEq, Repr

/-- The function `getCookie` (lines 144-150): the percent-decoded value of the
cookie and a nil error, or `""` and the error. -/
def getCookie (req : Request) (name : GoString) : GoString × Option GoError :=
  match req.Cookie name with
  | none => ([], some GoError.ErrNoCookie)
  | some value =>
    match QueryUnescape value with
    | some v => (v, none)
    | none => ([], some GoError.EscapeError)

/-- The function `setCookie` (lines 152-205); `header` is the list of cookies
already added as `Set-Cookie` headers of the response. -/
def setCookie (header : List Cookie) (name value : GoString) (others : List Any) :
    List Cookie :=
  let cookie : Cookie := { Name := name, Value := QueryEscape value }
  let cookie :=
    match others with
    | Any.int v :: _ => { cookie with MaxAge := v }
    | Any.int64 v :: _ => { cookie with MaxAge := v }
    | Any.int32 v :: _ => { cookie with MaxAge := v }
    | _ => cookie
  let cookie :=
    match others with
    | _ :: Any.string v :: _ => if v.length > 0 then { cookie with Path := v } else cookie
    | _ :: _ :: _ => cookie
    | _ => { cookie with Path := [47] }
  let cookie :=
    match others with
    | _ :: _ :: Any.string v :: _ => if v.length > 0 then { cookie with Domain := v } else cookie
    | _ => cookie
  let cookie :=
    match others with
    | _ :: _ :: _ :: Any.bool v :: _ => { cookie with Secure := v }
    | _ :: _ :: _ :: Any.nil :: _ => cookie
    | _ :: _ :: _ :: _ :: _ => { cookie with Secure := true }
    | _ => cookie
  let cookie :=
    match others with
    | _ :: _ :: _ :: _ :: Any.bool true :: _ => { cookie with HttpOnly := true }
    | _ => cookie
  header ++ [cookie]

/-- The local variables of the handler after the four resolution steps. -/
structure Locals where
  lang : GoString
  isNeedRedir : Bool
  hasCookie : Bool
  deriving DecidableEq, Repr

/-- Lines 101-128 of the handler: the language is read from the URL argument,
then the cookie, then `Accept-Language`, then the default. -/
def resolve (opt : Options) (req : Request) : Locals :=
  let isNeedRedir := false
  let hasCookie := false
  -- 1. Check URL arguments.
  let lang := req.FormValue opt.Parameter
  -- 2. Get language information from cookies.
  let s : Locals :=
    if lang.length = 0 then
      let r := getCookie req opt.CookieName
      { lang := r.1, isNeedRedir := isNeedRedir,
        hasCookie := if r.2 = none then true else hasCookie }
    else
      { lang := lang, isNeedRedir := true, hasCookie := hasCookie }
  -- 3. Get language information from 'Accept-Language'.
  let s : Locals :=
    if s.lang.length = 0 then
      let al := req.Header (str "Accept-Language")
      if al.length > 4 then { s with lang := al.take 5 } else s
    else s
  -- 4. Default language.
  if s.lang.length = 0 then { s with lang := opt.DefaultLang, isNeedRedir := false } else s

/-- What one run of the handler did. -/
structure Result where
  /-- State of gettext after the run. -/
  gettext : Gettext
  /-- Cookies added as `Set-Cookie` headers. -/
  cookies : List Cookie
  /-- Values given to `c.Map`. -/
  mapped : List Locale
  /-- Calls of `http.Redirect`: location and status code. -/
  redirects : List (GoString × Nat)
  /-- The run ended in a panic. -/
  panicked : Bool
  deriving DecidableEq, Repr

/-- The constant `http.StatusFound`. -/
def StatusFound : Nat := 302

/-- The handler returned by `I18n(options...)` (lines 100-140), run on the
request `req` with gettext in state `g`. -/
def I18n (u : CaseTables) (options : List Options) (req : Request) (g : Gettext) : Result :=
  let opt := prepareOptions options
  let g := initLocale opt g
  let l := resolve opt req
  let language := toLanguage u l.lang
  -- Save language information in cookies.
  let cookies :=
    if !l.hasCookie then
      setCookie [] opt.CookieName language
        [Any.int (2 ^ 31 - 1), Any.string ([47] ++ trimPrefixSlash opt.SubURL)]
    else []
  let g := g ++ [GettextCall.SetLocale (toLocale u l.lang false)]
  let mapped := [{ Lang := language : Locale }]
  if opt.Redirect && l.isNeedRedir then
    match sliceTo req.RequestURI (stringsIndex req.RequestURI 63) with
    | none =>
      { gettext := g, cookies := cookies, mapped := mapped, redirects := [], panicked := true }
    | some path =>
      { gettext := g, cookies := cookies, mapped := mapped,
        redirects := [(opt.SubURL ++ path, StatusFound)], panicked := false }
  else
    { gettext := g, cookies := cookies, mapped := mapped, redirects := [], panicked := false }

/-- Requests handled one after another by the same handler: the state of gettext
after the last one.  (A panic ends the request, not the process: the HTTP
server recovers it.) -/
def serve (u : CaseTables) (options : List Options) : List Request → Gettext → Gettext
  | [], g => g
  | req :: reqs, g => serve u options reqs (I18n u options req g).gettext

/-- Where a resolution outcome took its tag from. -/
inductive Source
  | Parameter
  | Cookie
  | Header
  | Default
  deriving DecidableEq, Repr

/-- The source of the chosen tag, following the precedence chain of the
specification: the parameter when it is non-empty; else the cookie when it is
present, decodes and its value is non-empty; else the header when it is longer
than 4 bytes; else the default. -/
def chosenSource (opt : Options) (req : Request) : Source :=
  if (req.FormValue opt.Parameter).length ≠ 0 then Source.Parameter
  else if ((req.Cookie opt.CookieName).bind QueryUnescape).getD [] ≠ [] then Source.Cookie
  else if (req.Header (str "Accept-Language")).length > 4 then Source.Header
  else Source.Default

/-- Case tables that agree with Go on U+0080 ..= U+00FF and on the three runes
outside that block that the block maps to or from: U+00C0 ..= U+00DE, without
U+00D7, are the capitals of U+00E0 ..= U+00FE; the capital of U+00FF is U+0178;
the capital of U+00B5 (micro sign) is U+039C, whose lower case is U+03BC.  Every
other rune is left alone.  They serve to evaluate the definitions on concrete
strings. -/
def latin1 : CaseTables where
  lower r :=
    if 0xC0 ≤ r ∧ r ≤ 0xDE ∧ r ≠ 0xD7 then r + 32
    else if r = 0x178 then 0xFF else if r = 0x39C then 0x3BC else r
  upper r :=
    if 0xE0 ≤ r ∧ r ≤ 0xFE ∧ r ≠ 0xF7 then r - 32
    else if r = 0xB5 then 0x39C else if r = 0xFF then 0x178
    else if r = 0x3BC then 0x39C else r

/-- A request with no parameter, no cookie, no header and an empty `RequestURI`. -/
def emptyRequest : Request where
  FormValue _ := []
  Cookie _ := none
  Header _ := []
  RequestURI := []

/-- The request `req` with the cookie `name` removed. -/
def Request.withoutCookie (req : Request) (name : GoString) : Request :=
  { req with Cookie := fun k => if k = name then none else req.Cookie k }

/-- The request carries a cookie `name` whose value percent-decodes. -/
def hasDecodableCookie (req : Request) (name : GoString) : Bool :=
  ((req.Cookie name).bind QueryUnescape).isSome

/-- The cookie that the handler writes for the language `language` (line 132). -/
def languageCookie (opt : Options) (language : GoString) : Cookie :=
  { Name := opt.CookieName, Value := QueryEscape language, MaxAge := 2 ^ 31 - 1,
    Path := 47 :: trimPrefixSlash opt.SubURL }

/-! ## Concrete requests used to evaluate the handler -/

/-- The request of the test "Set by redirect of URL parameter":
`GET /foobar?lang=en-us`. -/
def reqParamQuery : Request := { emptyRequest with
  FormValue := fun k => if k = str "lang" then str "en-us" else []
  RequestURI := str "/foobar?lang=en-us" }

/-- A `POST /foobar` whose form body holds `lang=en-us`: the parameter is set and
the `RequestURI` has no `?`. -/
def reqParamForm : Request := { emptyRequest with
  FormValue := fun k => if k = str "lang" then str "en-us" else []
  RequestURI := str "/foobar" }

/-- The request of the test "Set by Accept-Language": `GET /foobar` with the
header `Accept-Language: en-US`. -/
def reqHeader : Request := { emptyRequest with
  Header := fun k => if k = str "Accept-Language" then str "en-US" else []
  RequestURI := str "/foobar" }

/-- A request `GET /foobar` carrying the cookie `_language=en-us` and the header
`Accept-Language: fr-FR`. -/
def reqCookie : Request := { emptyRequest with
  Cookie := fun k => if k = str "_language" then some (str "en-us") else none
  Header := fun k => if k = str "Accept-Language" then str "fr-FR" else []
  RequestURI := str "/foobar" }

/-- A request `GET /foobar` carrying the cookie `_language=` (empty value) and the
header `Accept-Language: en-US`. -/
def reqEmptyCookie : Request := { emptyRequest with
  Cookie := fun k => if k = str "_language" then some [] else none
  Header := fun k => if k = str "Accept-Language" then str "en-US" else []
  RequestURI := str "/foobar" }

/-- A request `GET /foobar` carrying the undecodable cookie `_language=%zz` and the
header `Accept-Language: en-US`. -/
def reqBadCookie : Request := { emptyRequest with
  Cookie := fun k => if k = str "_language" then some (str "%zz") else none
  Header := fun k => if k = str "Accept-Language" then str "en-US" else []
  RequestURI := str "/foobar" }

/-- The request `GET /foobar?lang=en-us` sent with the cookie `_language=fr-fr`
and the header `Accept-Language: de-DE`. -/
def reqParamAll : Request where
  FormValue k := if k = str "lang" then str "en-us" else []
  Cookie k := if k = str "_language" then some (str "fr-fr") else none
  Header k := if k = str "Accept-Language" then str "de-DE" else []
  RequestURI := str "/foobar?lang=en-us"

/-- The request `GET /foobar?lang=zh_Hans-CN`. -/
def reqParamScript : Request := { emptyRequest with
  FormValue := fun k => if k = str "lang" then str "zh_Hans-CN" else []
  RequestURI := str "/foobar?lang=zh_Hans-CN" }

/-- The request `GET /foobar?lang=en-%C2%B5`: the parameter is `en-` followed by
U+00B5 (micro sign). -/
def reqParamMicro : Request := { emptyRequest with
  FormValue := fun k => if k = str "lang" then str "en-" ++ encodeRune 0xB5 else []
  RequestURI := str "/foobar?lang=en-%C2%B5" }

/-- The request `GET /foobar?lang=zh_Hans_CN`. -/
def reqParamUnderscores : Request := { emptyRequest with
  FormValue := fun k => if k = str "lang" then str "zh_Hans_CN" else []
  RequestURI := str "/foobar?lang=zh_Hans_CN" }

/-- The follow-up of `reqParamUnderscores`: `GET /foobar` with the cookie
`_language=zh-hans_cn` that the first response set. -/
def reqFollowUnderscores : Request := { emptyRequest with
  Cookie := fun k => if k = str "_language" then some (str "zh-hans_cn") else none
  RequestURI := str "/foobar" }

/-- The follow-up of `reqHeader`: `GET /foobar` with the cookie `_language=en-us`
that the first response set, and the same header. -/
def reqFollowHeader : Request := { reqHeader with
  Cookie := fun k => if k = str "_language" then some (str "en-us") else none }

/-- The options of the test "Set by redirect of URL parameter". -/
def optLang : List Options := [{ Parameter := str "lang" }]

/-- The options `Options{Parameter: "lang", Redirect: false}`, written out. -/
def optNoRedirect : List Options := [{ Parameter := str "lang", Redirect := false }]

/-- The follow-up of `emptyRequest` under default options: `GET /foobar` with the
cookie `_language=zh-cn` that the first response set. -/
def reqFollowDefault : Request := { emptyRequest with
  Cookie := fun k => if k = str "_language" then some (str "zh-cn") else none
  RequestURI := str "/foobar" }

/-- Lines 101-123 of the handler: the local variables after steps 1 to 3, when
the default branch (lines 125-128) is about to be tested. -/
def resolveBeforeDefault (opt : Options) (req : Request) : Locals :=
  let isNeedRedir := false
  let hasCookie := false
  let lang := req.FormValue opt.Parameter
  let s : Locals :=
    if lang.length = 0 then
      let r := getCookie req opt.CookieName
      { lang := r.1, isNeedRedir := isNeedRedir,
        hasCookie := if r.2 = none then true else hasCookie }
    else
      { lang := lang, isNeedRedir := true, hasCookie := hasCookie }
  if s.lang.length = 0 then
    let al := req.Header (str "Accept-Language")
    if al.length > 4 then { s with lang := al.take 5 } else s
  else s

/-- The function `localeToTag` in the words of the specification: when the locale
holds a `_`, it is split at the first one into two parts, both are lower-cased
and joined with `-`; otherwise the whole string is lower-cased. -/
def localeToTag (u : CaseTables) (locale : GoString) : GoString :=
  if 95 ∈ locale then
    stringsToLower u (locale.takeWhile (fun b => b ≠ 95)) ++ [45]
      ++ stringsToLower u ((locale.dropWhile (fun b => b ≠ 95)).drop 1)
  else stringsToLower u locale

/-- The casing that `toLocale(tag, false)` gives an ASCII region: a region longer
than 2 bytes has its first byte upper-cased and the others lower-cased, a
shorter one is upper-cased. -/
def regionCase (u : CaseTables) (b : GoString) : GoString :=
  if b.length > 2 then unicodeToUpper u (b.headD 0) :: b.tail.map (unicodeToLower u)
  else b.map (unicodeToUpper u)

/-- No byte of the string is an ASCII capital: what `strings.ToLower` leaves alone
in an ASCII string. -/
def IsLowerASCII (s : GoString) : Prop := ∀ b ∈ s, b < 128 ∧ ¬ (65 ≤ b ∧ b ≤ 90)

instance (s : GoString) : Decidable (IsLowerASCII s) := by
  unfold IsLowerASCII; infer_instance

/-- The function `utf8.RuneCountInString`: the number of characters of a string,
a byte that starts no valid encoding counting for one.  `skip` counts the bytes
of the current character still to be passed over. -/
def runeCount : GoString → Nat → Nat
  | [], _ => 0
  | _ :: rest, skip + 1 => runeCount rest skip
  | b0 :: rest, 0 => 1 + runeCount rest ((decodeRune b0 rest).2 - 1)

/-- The request `GET /foobar` with the header `Accept-Language: abcdé`: 5
characters, 6 bytes (the last character is U+00E9). -/
def reqHeaderAccent : Request := { emptyRequest with
  Header := fun k =>
    if k = str "Accept-Language" then str "abcd" ++ encodeRune 0xE9 else []
  RequestURI := str "/foobar" }

/-- The request `GET /foobar` with the header `Accept-Language: éa-b`: 4
characters, 5 bytes (the first character is U+00E9). -/
def reqHeaderFourChars : Request := { emptyRequest with
  Header := fun k =>
    if k = str "Accept-Language" then encodeRune 0xE9 ++ str "a-b" else []
  RequestURI := str "/foobar" }

/-! ## Basic facts -/

theorem prepareOptions_Redirect (options : List Options) :
    (prepareOptions options).Redirect = true := by
  simp only [prepareOptions]
  split_ifs <;> simp_all

theorem prepareOptions_DefaultLang_ne (options : List Options) :
    (prepareOptions options).DefaultLang ≠ [] := by
  simp only [prepareOptions]
  split_ifs with h
  · decide
  · intro h'
    exact h (by rw [h']; rfl)

theorem indexFrom_of_not_mem (c : Nat) (s : GoString) (i : Nat) (h : c ∉ s) :
    indexFrom c s i = -1 := by
  induction s generalizing i with
  | nil => rfl
  | cons b rest ih =>
    have hb : b ≠ c := fun e => h (by simp [e])
    have hr : c ∉ rest := fun e => h (by simp [e])
    simp [indexFrom, hb, ih _ hr]

theorem indexFrom_append (c : Nat) (a b : GoString) (i : Nat) (h : c ∉ a) :
    indexFrom c (a ++ c :: b) i = ((i + a.length : Nat) : Int) := by
  induction a generalizing i with
  | nil => simp [indexFrom]
  | cons x rest ih =>
    have hx : x ≠ c := fun e => h (by simp [e])
    have hr : c ∉ rest := fun e => h (by simp [e])
    have e : indexFrom c (x :: rest ++ c :: b) i = indexFrom c (rest ++ c :: b) (i + 1) := by
      simp [indexFrom, hx]
    rw [e, ih (i + 1) hr]
    simp only [List.length_cons]
    push_cast
    omega

theorem exists_split_of_mem (c : Nat) (s : GoString) (h : c ∈ s) :
    ∃ a b, s = a ++ c :: b ∧ c ∉ a := by
  induction s with
  | nil => simp at h
  | cons x rest ih =>
    by_cases hx : x = c
    · exact ⟨[], rest, by simp [hx], by simp⟩
    · have hr : c ∈ rest := by
        rcases List.mem_cons.mp h with e | e
        · exact absurd e.symm hx
        · exact e
      obtain ⟨a, b, hab, hna⟩ := ih hr
      refine ⟨x :: a, b, by simp [hab], ?_⟩
      intro hm
      rcases List.mem_cons.mp hm with e | e
      · exact hx e.symm
      · exact hna e

theorem sliceTo_of_not_mem (c : Nat) (s : GoString) (h : c ∉ s) :
    sliceTo s (stringsIndex s c) = none := by
  simp [sliceTo, stringsIndex, indexFrom_of_not_mem c s 0 h]

theorem sliceTo_append (c : Nat) (a b : GoString) (h : c ∉ a) :
    sliceTo (a ++ c :: b) (stringsIndex (a ++ c :: b) c) = some a := by
  simp [sliceTo, stringsIndex, indexFrom_append c a b 0 h]
  omega

theorem resolve_of_param (opt : Options) (req : Request)
    (h : req.FormValue opt.Parameter ≠ []) :
    resolve opt req =
      { lang := req.FormValue opt.Parameter, isNeedRedir := true, hasCookie := false } := by
  simp [resolve, h]

theorem resolve_isNeedRedir (opt : Options) (req : Request) :
    (resolve opt req).isNeedRedir = decide (req.FormValue opt.Parameter ≠ []) := by
  by_cases h : req.FormValue opt.Parameter = []
  · simp only [resolve, h, List.length_nil, if_true]
    split_ifs <;> simp
  · simp [resolve_of_param opt req h, h]

theorem resolve_hasCookie (opt : Options) (req : Request) :
    (resolve opt req).hasCookie =
      (decide (req.FormValue opt.Parameter = []) &&
        decide ((getCookie req opt.CookieName).2 = none)) := by
  by_cases h : req.FormValue opt.Parameter = []
  · simp only [resolve, h, List.length_nil, if_true]
    split_ifs <;> simp_all
  · simp [resolve_of_param opt req h, h]

theorem resolve_lang_of_noparam (opt : Options) (req : Request)
    (h : req.FormValue opt.Parameter = []) :
    (resolve opt req).lang =
      if (getCookie req opt.CookieName).1 ≠ [] then (getCookie req opt.CookieName).1
      else if (req.Header (str "Accept-Language")).length > 4 then
        (req.Header (str "Accept-Language")).take 5
      else opt.DefaultLang := by
  simp only [resolve, h, List.length_nil, if_true]
  split_ifs <;> simp_all

/-! ## Case mapping of ASCII strings -/

theorem unicodeToLower_lt (u : CaseTables) (b : Nat) (h : b < 128) :
    unicodeToLower u b < 128 := by
  simp only [unicodeToLower]
  split_ifs <;> omega

theorem unicodeToUpper_lt (u : CaseTables) (b : Nat) (h : b < 128) :
    unicodeToUpper u b < 128 := by
  simp only [unicodeToUpper]
  split_ifs <;> omega

theorem unicodeToLower_idem (u : CaseTables) (b : Nat) (h : b < 128) :
    unicodeToLower u (unicodeToLower u b) = unicodeToLower u b := by
  simp only [unicodeToLower]
  split_ifs <;> omega

theorem unicodeToLower_upper (u : CaseTables) (b : Nat) (h : b < 128) :
    unicodeToLower u (unicodeToUpper u b) = unicodeToLower u b := by
  simp only [unicodeToLower, unicodeToUpper]
  split_ifs <;> omega

theorem unicodeToLower_eq_iff (u : CaseTables) (b c : Nat) (h : b < 128)
    (hc : c < 65 ∨ 122 < c ∨ (90 < c ∧ c < 97)) :
    unicodeToLower u b = c ↔ b = c := by
  simp only [unicodeToLower]
  split_ifs <;> omega

theorem mapRunes_ascii (f : Nat → Nat) (hf : ∀ b, b < 128 → f b < 128) (s : GoString)
    (hs : IsASCII s) : mapRunes f s 0 = s.map f := by
  induction s with
  | nil => rfl
  | cons b rest ih =>
    have hb : b < 128 := hs b (by simp)
    have hr : IsASCII rest := fun x hx => hs x (by simp [hx])
    have hd : decodeRune b rest = (b, 1) := by
      simp [decodeRune, hb]
    have he : encodeRune (f b) = [f b] := by
      simp [encodeRune, hf b hb]
    simp [mapRunes, hd, he, ih hr]

theorem stringsToLower_ascii (u : CaseTables) (s : GoString) (hs : IsASCII s) :
    stringsToLower u s = s.map (unicodeToLower u) :=
  mapRunes_ascii _ (unicodeToLower_lt u) s hs

theorem stringsToUpper_ascii (u : CaseTables) (s : GoString) (hs : IsASCII s) :
    stringsToUpper u s = s.map (unicodeToUpper u) :=
  mapRunes_ascii _ (unicodeToUpper_lt u) s hs

theorem IsASCII_map_lower (u : CaseTables) (s : GoString) (hs : IsASCII s) :
    IsASCII (s.map (unicodeToLower u)) := by
  intro b hb
  obtain ⟨a, ha, rfl⟩ := List.mem_map.mp hb
  exact unicodeToLower_lt u a (hs a ha)

theorem IsASCII_map_upper (u : CaseTables) (s : GoString) (hs : IsASCII s) :
    IsASCII (s.map (unicodeToUpper u)) := by
  intro b hb
  obtain ⟨a, ha, rfl⟩ := List.mem_map.mp hb
  exact unicodeToUpper_lt u a (hs a ha)

theorem IsASCII_append {a b : GoString} : IsASCII (a ++ b) ↔ IsASCII a ∧ IsASCII b := by
  simp only [IsASCII, List.mem_append]
  constructor
  · intro h
    exact ⟨fun x hx => h x (Or.inl hx), fun x hx => h x (Or.inr hx)⟩
  · rintro ⟨h1, h2⟩ x (hx | hx)
    · exact h1 x hx
    · exact h2 x hx

theorem IsASCII_cons {x : Nat} {a : GoString} : IsASCII (x :: a) ↔ x < 128 ∧ IsASCII a := by
  simp [IsASCII]

theorem not_mem_map_lower (u : CaseTables) (s : GoString) (c : Nat) (hs : IsASCII s)
    (hc : c < 65 ∨ 122 < c ∨ (90 < c ∧ c < 97)) (h : c ∉ s) :
    c ∉ s.map (unicodeToLower u) := by
  intro hm
  obtain ⟨a, ha, e⟩ := List.mem_map.mp hm
  rw [(unicodeToLower_eq_iff u a c (hs a ha) hc).mp e] at ha
  exact h ha

theorem map_lower_idem (u : CaseTables) (s : GoString) (hs : IsASCII s) :
    (s.map (unicodeToLower u)).map (unicodeToLower u) = s.map (unicodeToLower u) := by
  rw [List.map_map]
  apply List.map_congr_left
  intro a ha
  exact unicodeToLower_idem u a (hs a ha)

theorem map_lower_upper (u : CaseTables) (s : GoString) (hs : IsASCII s) :
    (s.map (unicodeToUpper u)).map (unicodeToLower u) = s.map (unicodeToLower u) := by
  rw [List.map_map]
  apply List.map_congr_left
  intro a ha
  exact unicodeToLower_upper u a (hs a ha)

/-! ## The codec on a tag split at its first separator -/

theorem take_append_cons (a b : GoString) (c : Nat) :
    (a ++ c :: b).take a.length = a := by
  simp

theorem drop_append_cons (a b : GoString) (c : Nat) :
    (a ++ c :: b).drop (a.length + 1) = b := by
  induction a with
  | nil => rfl
  | cons x a ih => simp

theorem drop_append_cons_succ (a b : GoString) (c : Nat) :
    (a ++ c :: b).drop (a.length + 2) = b.drop 1 := by
  induction a with
  | nil => rfl
  | cons x a ih => simp

theorem getD_append_cons (a b : GoString) (c d : Nat) :
    (a ++ c :: b).getD (a.length + 1) d = b.getD 0 d := by
  induction a with
  | nil => rfl
  | cons x a ih => simpa using ih

theorem toLanguage_of_not_mem (u : CaseTables) (s : GoString) (h : 95 ∉ s) :
    toLanguage u s = stringsToLower u s := by
  simp [toLanguage, stringsIndex, indexFrom_of_not_mem 95 s 0 h]

theorem toLanguage_append (u : CaseTables) (a b : GoString) (h : 95 ∉ a) :
    toLanguage u (a ++ 95 :: b) = stringsToLower u a ++ 45 :: stringsToLower u b := by
  have hi : stringsIndex (a ++ 95 :: b) 95 = (a.length : Int) := by
    simp [stringsIndex, indexFrom_append 95 a b 0 h]
  simp only [toLanguage, hi]
  simp [drop_append_cons]

theorem toLocale_of_not_mem (u : CaseTables) (s : GoString) (l : Bool) (h : 45 ∉ s) :
    toLocale u s l = stringsToLower u s := by
  simp [toLocale, stringsIndex, indexFrom_of_not_mem 45 s 0 h]

theorem toLocale_append (u : CaseTables) (a b : GoString) (h : 45 ∉ a) :
    toLocale u (a ++ 45 :: b) false =
      if b.length > 2 then
        stringsToLower u a ++ [95] ++ stringsToUpper u (encodeRune (b.getD 0 0))
          ++ stringsToLower u (b.drop 1)
      else stringsToLower u a ++ [95] ++ stringsToUpper u b := by
  have hi : stringsIndex (a ++ 45 :: b) 45 = (a.length : Int) := by
    simp [stringsIndex, indexFrom_append 45 a b 0 h]
  simp only [toLocale, hi, ge_iff_le, Nat.cast_nonneg, if_true, Int.toNat_ofNat,
    take_append_cons, drop_append_cons, drop_append_cons_succ, getD_append_cons,
    Bool.false_eq_true, if_false]

/-! ## Percent-encoding round trip and the bytes of a lower-cased string -/

theorem ishex_upperhex (n : Nat) (h : n < 16) : ishex (upperhex n) = true := by
  simp only [ishex, upperhex]
  split_ifs <;> simp <;> omega

theorem unhex_upperhex (n : Nat) (h : n < 16) : unhex (upperhex n) = n := by
  simp only [unhex, upperhex]
  split_ifs <;> omega

theorem QueryUnescape_cons (c : Nat) (rest : GoString) (h : c ≠ 37) :
    QueryUnescape (c :: rest) =
      if c = 43 then (QueryUnescape rest).map (fun t => 32 :: t)
      else (QueryUnescape rest).map (fun t => c :: t) := by
  rcases rest with _ | ⟨a, _ | ⟨b, r⟩⟩ <;> simp [QueryUnescape, h]

theorem QueryUnescape_percent (a b : Nat) (rest : GoString) :
    QueryUnescape (37 :: a :: b :: rest) =
      if ishex a = true ∧ ishex b = true then
        (QueryUnescape rest).map (fun t => (unhex a * 16 + unhex b) :: t)
      else none := by
  rw [QueryUnescape]
  simp

theorem QueryUnescape_QueryEscape (s : GoString) (hs : IsBytes s) :
    QueryUnescape (QueryEscape s) = some s := by
  induction s with
  | nil => rfl
  | cons c rest ih =>
    have hc : c < 256 := hs c (by simp)
    have hr : IsBytes rest := fun x hx => hs x (by simp [hx])
    have ih' := ih hr
    by_cases h32 : c = 32
    · subst h32
      simp [QueryEscape, QueryUnescape_cons, ih']
    · by_cases he : shouldEscape c = true
      · have h1 : c / 16 < 16 := by omega
        have h2 : c % 16 < 16 := by omega
        have h3 : c / 16 * 16 + c % 16 = c := by omega
        simp [QueryEscape, QueryUnescape_percent, h32, he, ih', ishex_upperhex, unhex_upperhex,
          h1, h2, h3]
      · have h37 : c ≠ 37 := by
          intro e; subst e; exact he (by decide)
        have h43 : c ≠ 43 := by
          intro e; subst e; exact he (by decide)
        simp [QueryEscape, QueryUnescape_cons, h32, he, ih', h37, h43]

theorem IsBytes_encodeRune (r : Nat) : IsBytes (encodeRune r) := by
  intro b hb
  simp only [encodeRune] at hb
  split_ifs at hb <;> simp at hb <;> omega

theorem IsBytes_mapRunes (f : Nat → Nat) (s : GoString) (k : Nat) :
    IsBytes (mapRunes f s k) := by
  induction s generalizing k with
  | nil => intro b hb; simp [mapRunes] at hb
  | cons x rest ih =>
    cases k with
    | zero =>
      intro b hb
      simp only [mapRunes, List.mem_append] at hb
      rcases hb with hb | hb
      · exact IsBytes_encodeRune _ b hb
      · exact ih _ b hb
    | succ k =>
      intro b hb
      simp only [mapRunes] at hb
      exact ih _ b hb

theorem IsBytes_toLanguage (u : CaseTables) (s : GoString) : IsBytes (toLanguage u s) := by
  intro b hb
  simp only [toLanguage] at hb
  split_ifs at hb
  · simp only [List.mem_append, List.mem_singleton] at hb
    rcases hb with (hb | hb) | hb
    · exact IsBytes_mapRunes _ _ _ b hb
    · omega
    · exact IsBytes_mapRunes _ _ _ b hb
  · exact IsBytes_mapRunes _ _ _ b hb

theorem encodeRune_ne_nil (r : Nat) : encodeRune r ≠ [] := by
  simp only [encodeRune]
  split_ifs <;> simp

theorem toLanguage_ne_nil (u : CaseTables) (s : GoString) (h : s ≠ []) :
    toLanguage u s ≠ [] := by
  simp only [toLanguage]
  split_ifs
  · simp
  · cases s with
    | nil => exact absurd rfl h
    | cons x rest =>
      simp only [stringsToLower, mapRunes]
      intro e
      exact encodeRune_ne_nil _ (List.append_eq_nil.mp e).1

theorem resolve_lang_ne_nil (opt : Options) (req : Request) (hd : opt.DefaultLang ≠ []) :
    (resolve opt req).lang ≠ [] := by
  by_cases h : req.FormValue opt.Parameter = []
  · rw [resolve_lang_of_noparam opt req h]
    split_ifs with h1 h2
    · exact h1
    · intro e
      have := congrArg List.length e
      simp only [List.length_take, List.length_nil] at this
      omega
    · exact hd
  · rw [resolve_of_param opt req h]
    exact h

/-! ## Composing the two directions of the codec on ASCII tags -/

theorem toLanguage_ascii_of_not_mem (u : CaseTables) (s : GoString) (hs : IsASCII s)
    (h : 95 ∉ s) : toLanguage u s = s.map (unicodeToLower u) := by
  rw [toLanguage_of_not_mem u s h, stringsToLower_ascii u s hs]

theorem toLanguage_toLocale (u : CaseTables) (s : GoString) (hs : IsASCII s) (h : 95 ∉ s) :
    toLanguage u (toLocale u s false) = toLanguage u s := by
  have h95 : (95 : Nat) < 65 ∨ 122 < 95 ∨ (90 < 95 ∧ 95 < 97) := by omega
  by_cases hm : 45 ∈ s
  · obtain ⟨a, b, rfl, ha⟩ := exists_split_of_mem 45 s hm
    have hsa : IsASCII a := (IsASCII_append.mp hs).1
    have hsb : IsASCII b := (IsASCII_cons.mp (IsASCII_append.mp hs).2).2
    have h95a : 95 ∉ a := fun e => h (by simp [e])
    have hLa : 95 ∉ a.map (unicodeToLower u) := not_mem_map_lower u a 95 hsa h95 h95a
    have hright : toLanguage u (a ++ 45 :: b) =
        a.map (unicodeToLower u) ++ 45 :: b.map (unicodeToLower u) := by
      rw [toLanguage_ascii_of_not_mem u _ hs h]
      simp [unicodeToLower]
    rw [hright, toLocale_append u a b ha, stringsToLower_ascii u a hsa]
    split_ifs with hl
    · cases b with
      | nil => simp at hl
      | cons x b' =>
        have hx : x < 128 := (IsASCII_cons.mp hsb).1
        have hsb' : IsASCII b' := (IsASCII_cons.mp hsb).2
        have he : encodeRune x = [x] := by simp [encodeRune, hx]
        have hux : stringsToUpper u [x] = [unicodeToUpper u x] := by
          rw [stringsToUpper_ascii u [x] (by simpa [IsASCII] using hx)]
          rfl
        simp only [List.getD_cons_zero, List.drop_one, List.tail_cons, he, hux,
          stringsToLower_ascii u b' hsb', List.append_assoc, List.singleton_append,
          List.cons_append, List.nil_append]
        rw [toLanguage_append u _ _ hLa,
          stringsToLower_ascii u _ (IsASCII_map_lower u a hsa), map_lower_idem u a hsa]
        have hs2 : IsASCII (unicodeToUpper u x :: b'.map (unicodeToLower u)) :=
          IsASCII_cons.mpr ⟨unicodeToUpper_lt u x hx, IsASCII_map_lower u b' hsb'⟩
        rw [stringsToLower_ascii u _ hs2]
        simp [unicodeToLower_upper u x hx, map_lower_idem u b' hsb']
    · simp only [List.append_assoc, List.singleton_append, stringsToUpper_ascii u b hsb]
      rw [toLanguage_append u _ _ hLa,
        stringsToLower_ascii u _ (IsASCII_map_lower u a hsa), map_lower_idem u a hsa,
        stringsToLower_ascii u _ (IsASCII_map_upper u b hsb), map_lower_upper u b hsb]
  · rw [toLocale_of_not_mem u s false hm, stringsToLower_ascii u s hs,
      toLanguage_ascii_of_not_mem u s hs h,
      toLanguage_ascii_of_not_mem u _ (IsASCII_map_lower u s hs)
        (not_mem_map_lower u s 95 hs h95 h),
      map_lower_idem u s hs]

/-! ## UTF-8: decoding what was encoded, and strings cut at an ASCII byte -/

theorem decodeRune_valid (b0 : Nat) (rest : GoString) : ValidRune (decodeRune b0 rest).1 := by
  unfold decodeRune ValidRune
  split_ifs
  · simp only; omega
  · simp [RuneError]
  · split
    · split_ifs with h
      · simp only; omega
      · simp [RuneError]
    · simp [RuneError]
  · split
    · split_ifs with h
      · simp only [acceptLo, acceptHi, isCont] at h ⊢
        obtain ⟨h1, h2, h3⟩ := h
        simp only [Bool.and_eq_true, decide_eq_true_eq] at h3
        split_ifs at h1 h2 <;> omega
      · simp [RuneError]
    · simp [RuneError]
  · split
    · split_ifs with h
      · simp only [acceptLo, acceptHi, isCont] at h ⊢
        obtain ⟨h1, h2, h3, h4⟩ := h
        simp only [Bool.and_eq_true, decide_eq_true_eq] at h3 h4
        split_ifs at h1 h2 <;> omega
      · simp [RuneError]
    · simp [RuneError]
  · simp [RuneError]

theorem decodeRune_lt (b0 : Nat) (rest : GoString) (h : (decodeRune b0 rest).1 < 0x80) :
    (decodeRune b0 rest).1 = b0 ∧ (decodeRune b0 rest).2 = 1:= by
  unfold decodeRune at h ⊢
  split_ifs at h ⊢
  · simp
  · simp [RuneError] at h
  · split at h
    · split_ifs at h with h'
      · simp only at h; omega
      · simp [RuneError] at h
    · simp [RuneError] at h
  · split at h
    · split_ifs at h with h'
      · simp only [acceptLo, acceptHi, isCont] at h h'
        obtain ⟨h1, h2, h3⟩ := h'
        simp only [Bool.and_eq_true, decide_eq_true_eq] at h3
        split_ifs at h1 h2 <;> omega
      · simp [RuneError] at h
    · simp [RuneError] at h
  · split at h
    · split_ifs at h with h'
      · simp only [acceptLo, acceptHi, isCont] at h h'
        obtain ⟨h1, h2, h3, h4⟩ := h'
        simp only [Bool.and_eq_true, decide_eq_true_eq] at h3 h4
        split_ifs at h1 h2 <;> omega
      · simp [RuneError] at h
    · simp [RuneError] at h
  · simp [RuneError] at h


theorem mapRunes_encodeRune_append (f : Nat → Nat) (x : Nat) (t : GoString) (hx : ValidRune x) :
    mapRunes f (encodeRune x ++ t) 0 = encodeRune (f x) ++ mapRunes f t 0 := by
  obtain ⟨h1, h2⟩ := hx
  generalize he : encodeRune (f x) = e
  unfold encodeRune
  split_ifs with c1 c2 c3 c4
  · have hd : decodeRune x t = (x, 1) := by simp [decodeRune, c1]
    simp [mapRunes, hd, he]
  · have hd : decodeRune (0xC0 + x / 64) ((0x80 + x % 64) :: t) = (x, 2) := by
      have e1 : ¬ (0xC0 + x / 64 < 0x80) := by omega
      have e2 : ¬ (0xC0 + x / 64 < 0xC2) := by omega
      have e3 : 0xC0 + x / 64 < 0xE0 := by omega
      have e4 : isCont (0x80 + x % 64) = true := by
        simp only [isCont, Bool.and_eq_true, decide_eq_true_eq]; omega
      have e5 : (0xC0 + x / 64) % 32 * 64 + (0x80 + x % 64) % 64 = x := by omega
      simp only [decodeRune, e1, e2, e3, e4, e5, if_true, if_false]
    simp [mapRunes, hd, he]
  · omega
  · have hd : decodeRune (0xE0 + x / 4096) ((0x80 + x / 64 % 64) :: (0x80 + x % 64) :: t)
        = (x, 3) := by
      have e1 : ¬ (0xE0 + x / 4096 < 0x80) := by omega
      have e2 : ¬ (0xE0 + x / 4096 < 0xC2) := by omega
      have e3 : ¬ (0xE0 + x / 4096 < 0xE0) := by omega
      have e3' : 0xE0 + x / 4096 < 0xF0 := by omega
      have e4 : isCont (0x80 + x % 64) = true := by
        simp only [isCont, Bool.and_eq_true, decide_eq_true_eq]; omega
      have e6 : acceptLo (0xE0 + x / 4096) ≤ 0x80 + x / 64 % 64 := by
        simp only [acceptLo]; split_ifs <;> omega
      have e7 : 0x80 + x / 64 % 64 ≤ acceptHi (0xE0 + x / 4096) := by
        simp only [acceptHi]; split_ifs <;> omega
      have e5 : (0xE0 + x / 4096) % 16 * 4096 + (0x80 + x / 64 % 64) % 64 * 64
          + (0x80 + x % 64) % 64 = x := by omega
      simp only [decodeRune, e1, e2, e3, e3', e4, e5, e6, e7, and_self, if_true, if_false]
    simp [mapRunes, hd, he]
  · have hd : decodeRune (0xF0 + x / 262144)
        ((0x80 + x / 4096 % 64) :: (0x80 + x / 64 % 64) :: (0x80 + x % 64) :: t) = (x, 4) := by
      have e1 : ¬ (0xF0 + x / 262144 < 0x80) := by omega
      have e2 : ¬ (0xF0 + x / 262144 < 0xC2) := by omega
      have e3 : ¬ (0xF0 + x / 262144 < 0xE0) := by omega
      have e3' : ¬ (0xF0 + x / 262144 < 0xF0) := by omega
      have e3'' : 0xF0 + x / 262144 < 0xF5 := by omega
      have e4 : isCont (0x80 + x % 64) = true := by
        simp only [isCont, Bool.and_eq_true, decide_eq_true_eq]; omega
      have e4' : isCont (0x80 + x / 64 % 64) = true := by
        simp only [isCont, Bool.and_eq_true, decide_eq_true_eq]; omega
      have e6 : acceptLo (0xF0 + x / 262144) ≤ 0x80 + x / 4096 % 64 := by
        simp only [acceptLo]; split_ifs <;> omega
      have e7 : 0x80 + x / 4096 % 64 ≤ acceptHi (0xF0 + x / 262144) := by
        simp only [acceptHi]; split_ifs <;> omega
      have e5 : (0xF0 + x / 262144) % 8 * 262144 + (0x80 + x / 4096 % 64) % 64 * 4096
          + (0x80 + x / 64 % 64) % 64 * 64 + (0x80 + x % 64) % 64 = x := by omega
      simp only [decodeRune, e1, e2, e3, e3', e3'', e4, e4', e5, e6, e7, and_self, if_true,
        if_false]
    simp [mapRunes, hd, he]


theorem eq_of_mem_encodeRune (c x : Nat) (hc : c < 0x80) (h : c ∈ encodeRune x) : x = c := by
  simp only [encodeRune] at h
  split_ifs at h <;> simp at h <;> omega

theorem decodeRune_width (b0 : Nat) (rest : GoString) :
    (decodeRune b0 rest).2 - 1 ≤ rest.length := by
  unfold decodeRune
  split_ifs
  · simp
  · simp
  · rcases rest with _ | ⟨b1, r⟩
    · simp
    · simp only; split_ifs <;> simp
  · rcases rest with _ | ⟨b1, _ | ⟨b2, r⟩⟩
    · simp
    · simp
    · simp only; split_ifs <;> simp
  · rcases rest with _ | ⟨b1, _ | ⟨b2, _ | ⟨b3, r⟩⟩⟩
    · simp
    · simp
    · simp
    · simp only; split_ifs <;> simp
  · simp

theorem decodeRune_append_ascii (b0 c : Nat) (rest b : GoString) (hc : c < 0x80) :
    decodeRune b0 (rest ++ c :: b) = decodeRune b0 rest := by
  have hn : isCont c = false := by
    simp only [isCont, Bool.and_eq_false_imp, decide_eq_true_eq, decide_eq_false_iff_not]
    omega
  have hlo : ¬ acceptLo b0 ≤ c := by
    simp only [acceptLo]; split_ifs <;> omega
  unfold decodeRune
  split_ifs
  · rfl
  · rfl
  · rcases rest with _ | ⟨b1, r⟩
    · simp [hn]
    · rfl
  · rcases rest with _ | ⟨b1, _ | ⟨b2, r⟩⟩
    · rcases b with _ | ⟨b', r'⟩ <;> simp [hlo]
    · simp [hn]
    · rfl
  · rcases rest with _ | ⟨b1, _ | ⟨b2, _ | ⟨b3, r⟩⟩⟩
    · rcases b with _ | ⟨b', _ | ⟨b'', r'⟩⟩ <;> simp [hlo]
    · rcases b with _ | ⟨b', r'⟩ <;> simp [hn]
    · simp [hn]
    · rfl
  · rfl

theorem mapRunes_append_ascii (f : Nat → Nat) (a b : GoString) (c k : Nat) (hc : c < 0x80)
    (hk : k ≤ a.length) :
    mapRunes f (a ++ c :: b) k = mapRunes f a k ++ (encodeRune (f c) ++ mapRunes f b 0) := by
  induction a generalizing k with
  | nil =>
    have hk0 : k = 0 := by simpa using hk
    subst hk0
    have hd : decodeRune c b = (c, 1) := by simp [decodeRune, hc]
    simp [mapRunes, hd]
  | cons x rest ih =>
    cases k with
    | zero =>
      have e : mapRunes f (x :: (rest ++ c :: b)) 0 =
          encodeRune (f (decodeRune x (rest ++ c :: b)).1) ++
            mapRunes f (rest ++ c :: b) ((decodeRune x (rest ++ c :: b)).2 - 1) := rfl
      have e' : mapRunes f (x :: rest) 0 =
          encodeRune (f (decodeRune x rest).1) ++
            mapRunes f rest ((decodeRune x rest).2 - 1) := rfl
      rw [List.cons_append, e, e', decodeRune_append_ascii x c rest b hc,
        ih _ (decodeRune_width x rest), List.append_assoc]
    | succ k =>
      have e : mapRunes f (x :: (rest ++ c :: b)) (k + 1) = mapRunes f (rest ++ c :: b) k := rfl
      have e' : mapRunes f (x :: rest) (k + 1) = mapRunes f rest k := rfl
      rw [List.cons_append, e, e']
      exact ih k (by simpa using hk)


/-! ## Lower-casing twice -/

theorem unicodeToLower_stable (u : CaseTables) (hu : LowerStable u) (r : Nat)
    (hr : ValidRune r) :
    ValidRune (unicodeToLower u r) ∧ (unicodeToLower u r = 95 → r = 95) ∧
      unicodeToLower u (unicodeToLower u r) = unicodeToLower u r := by
  by_cases h : r ≤ 0x7F
  · refine ⟨?_, ?_, unicodeToLower_idem u r (by omega)⟩
    · have := unicodeToLower_lt u r (by omega)
      constructor <;> omega
    · intro e
      exact (unicodeToLower_eq_iff u r 95 (by omega) (by omega)).mp e
  · have h' : unicodeToLower u r = u.lower r := by simp [unicodeToLower, h]
    obtain ⟨h1, h2, h3⟩ := hu r (by omega) hr
    rw [h']
    exact ⟨h1, fun e => absurd e h2, h3⟩

theorem stringsToLower_idem (u : CaseTables) (hu : LowerStable u) (s : GoString) (k : Nat) :
    mapRunes (unicodeToLower u) (mapRunes (unicodeToLower u) s k) 0 =
      mapRunes (unicodeToLower u) s k := by
  induction s generalizing k with
  | nil => rfl
  | cons x rest ih =>
    cases k with
    | zero =>
      have e : mapRunes (unicodeToLower u) (x :: rest) 0 =
          encodeRune (unicodeToLower u (decodeRune x rest).1) ++
            mapRunes (unicodeToLower u) rest ((decodeRune x rest).2 - 1) := rfl
      obtain ⟨h1, _, h3⟩ := unicodeToLower_stable u hu _ (decodeRune_valid x rest)
      rw [e, mapRunes_encodeRune_append _ _ _ h1, h3, ih]
    | succ k =>
      have e : mapRunes (unicodeToLower u) (x :: rest) (k + 1) =
          mapRunes (unicodeToLower u) rest k := rfl
      rw [e, ih]

theorem not_mem_stringsToLower (u : CaseTables) (hu : LowerStable u) (s : GoString) (k : Nat)
    (h : 95 ∉ s) : 95 ∉ mapRunes (unicodeToLower u) s k := by
  induction s generalizing k with
  | nil => simp [mapRunes]
  | cons x rest ih =>
    have hx : x ≠ 95 := fun e => h (by simp [e])
    have hr : 95 ∉ rest := fun e => h (by simp [e])
    cases k with
    | zero =>
      have e : mapRunes (unicodeToLower u) (x :: rest) 0 =
          encodeRune (unicodeToLower u (decodeRune x rest).1) ++
            mapRunes (unicodeToLower u) rest ((decodeRune x rest).2 - 1) := rfl
      rw [e]
      intro hm
      rcases List.mem_append.mp hm with hm | hm
      · have h1 := eq_of_mem_encodeRune 95 _ (by omega) hm
        have h2 := (unicodeToLower_stable u hu _ (decodeRune_valid x rest)).2.1 h1
        have h3 := (decodeRune_lt x rest (by omega)).1
        omega
      · exact ih _ hr hm
    | succ k =>
      have e : mapRunes (unicodeToLower u) (x :: rest) (k + 1) =
          mapRunes (unicodeToLower u) rest k := rfl
      rw [e]
      exact ih k hr

theorem stringsToLower_append_ascii (u : CaseTables) (a b : GoString) (c : Nat)
    (hc : c < 0x80) :
    stringsToLower u (a ++ c :: b) =
      stringsToLower u a ++ unicodeToLower u c :: stringsToLower u b := by
  have he : encodeRune (unicodeToLower u c) = [unicodeToLower u c] := by
    have := unicodeToLower_lt u c hc
    simp [encodeRune, this]
  simp only [stringsToLower]
  rw [mapRunes_append_ascii _ a b c 0 hc (by omega), he]
  rfl

theorem lower_idem (u : CaseTables) (s : GoString) (h : LowerStable u ∨ IsASCII s) :
    stringsToLower u (stringsToLower u s) = stringsToLower u s := by
  rcases h with hu | hs
  · exact stringsToLower_idem u hu s 0
  · rw [stringsToLower_ascii u s hs, stringsToLower_ascii u _ (IsASCII_map_lower u s hs),
      map_lower_idem u s hs]

theorem lower_not_mem (u : CaseTables) (s : GoString) (h : LowerStable u ∨ IsASCII s)
    (hn : 95 ∉ s) : 95 ∉ stringsToLower u s := by
  rcases h with hu | hs
  · exact not_mem_stringsToLower u hu s 0 hn
  · rw [stringsToLower_ascii u s hs]
    exact not_mem_map_lower u s 95 hs (by omega) hn

theorem toLanguage_idem (u : CaseTables) (s : GoString) (h : LowerStable u ∨ IsASCII s)
    (hc : s.count 95 ≤ 1) : toLanguage u (toLanguage u s) = toLanguage u s := by
  by_cases hm : 95 ∈ s
  · obtain ⟨a, b, rfl, ha⟩ := exists_split_of_mem 95 s hm
    have hb : 95 ∉ b := by
      intro e
      have : 0 < b.count 95 := List.count_pos_iff.mpr e
      simp only [List.count_append, List.count_cons_self] at hc
      omega
    have hsa : LowerStable u ∨ IsASCII a := h.imp id (fun hs => (IsASCII_append.mp hs).1)
    have hsb : LowerStable u ∨ IsASCII b :=
      h.imp id (fun hs => (IsASCII_cons.mp (IsASCII_append.mp hs).2).2)
    rw [toLanguage_append u a b ha]
    have hn : 95 ∉ stringsToLower u a ++ 45 :: stringsToLower u b := by
      intro e
      rcases List.mem_append.mp e with e | e
      · exact lower_not_mem u a hsa ha e
      · rcases List.mem_cons.mp e with e | e
        · omega
        · exact lower_not_mem u b hsb hb e
    rw [toLanguage_of_not_mem u _ hn, stringsToLower_append_ascii u _ _ 45 (by omega),
      lower_idem u a hsa, lower_idem u b hsb]
    rfl
  · rw [toLanguage_of_not_mem u s hm, toLanguage_of_not_mem u _ (lower_not_mem u s h hm)]
    exact lower_idem u s h

theorem toLanguage_toLocale_of_no_hyphen (u : CaseTables) (s : GoString)
    (h : LowerStable u ∨ IsASCII s) (h45 : 45 ∉ s) :
    toLanguage u (toLocale u s false) = toLanguage u s := by
  rw [toLocale_of_not_mem u s false h45]
  by_cases hm : 95 ∈ s
  · obtain ⟨a, b, rfl, ha⟩ := exists_split_of_mem 95 s hm
    have hsa : LowerStable u ∨ IsASCII a := h.imp id (fun hs => (IsASCII_append.mp hs).1)
    have hsb : LowerStable u ∨ IsASCII b :=
      h.imp id (fun hs => (IsASCII_cons.mp (IsASCII_append.mp hs).2).2)
    have e95 : unicodeToLower u 95 = 95 := rfl
    rw [stringsToLower_append_ascii u a b 95 (by omega), e95,
      toLanguage_append u _ _ (lower_not_mem u a hsa ha), toLanguage_append u a b ha,
      lower_idem u a hsa, lower_idem u b hsb]
  · rw [toLanguage_of_not_mem u s hm, toLanguage_of_not_mem u _ (lower_not_mem u s h hm)]
    exact lower_idem u s h

theorem LowerStable_latin1 : LowerStable latin1 := by
  intro r h1 h2
  simp only [ValidRune, latin1, unicodeToLower] at h2 ⊢
  refine ⟨?_, ?_, ?_⟩ <;> split_ifs <;> omega

/-! ## The codec on ASCII tags -/

theorem unicodeToUpper_lower (u : CaseTables) (b : Nat) (h : b < 128) :
    unicodeToUpper u (unicodeToLower u b) = unicodeToUpper u b := by
  simp only [unicodeToLower, unicodeToUpper]
  split_ifs <;> omega

theorem map_upper_lower (u : CaseTables) (s : GoString) (hs : IsASCII s) :
    (s.map (unicodeToLower u)).map (unicodeToUpper u) = s.map (unicodeToUpper u) := by
  rw [List.map_map]
  apply List.map_congr_left
  intro a ha
  exact unicodeToUpper_lower u a (hs a ha)

theorem IsASCII_regionCase (u : CaseTables) (b : GoString) (hb : IsASCII b) :
    IsASCII (regionCase u b) := by
  unfold regionCase
  split_ifs with h
  · cases b with
    | nil => simp at h
    | cons x b' =>
      exact IsASCII_cons.mpr ⟨unicodeToUpper_lt u x (IsASCII_cons.mp hb).1,
        IsASCII_map_lower u b' (IsASCII_cons.mp hb).2⟩
  · exact IsASCII_map_upper u b hb

theorem map_lower_regionCase (u : CaseTables) (b : GoString) (hb : IsASCII b) :
    (regionCase u b).map (unicodeToLower u) = b.map (unicodeToLower u) := by
  unfold regionCase
  split_ifs with h
  · cases b with
    | nil => simp at h
    | cons x b' =>
      simp [unicodeToLower_upper u x (IsASCII_cons.mp hb).1,
        map_lower_idem u b' (IsASCII_cons.mp hb).2]
  · exact map_lower_upper u b hb

theorem regionCase_map_lower (u : CaseTables) (b : GoString) (hb : IsASCII b) :
    regionCase u (b.map (unicodeToLower u)) = regionCase u b := by
  unfold regionCase
  rw [List.length_map]
  split_ifs with h
  · cases b with
    | nil => simp at h
    | cons x b' =>
      simp [unicodeToUpper_lower u x (IsASCII_cons.mp hb).1,
        map_lower_idem u b' (IsASCII_cons.mp hb).2]
  · exact map_upper_lower u b hb

theorem toLocale_ascii_append (u : CaseTables) (a b : GoString) (ha : 45 ∉ a)
    (hsa : IsASCII a) (hsb : IsASCII b) :
    toLocale u (a ++ 45 :: b) false = a.map (unicodeToLower u) ++ 95 :: regionCase u b := by
  rw [toLocale_append u a b ha, stringsToLower_ascii u a hsa]
  unfold regionCase
  split_ifs with h
  · cases b with
    | nil => simp at h
    | cons x b' =>
      have hx : x < 128 := (IsASCII_cons.mp hsb).1
      have he : encodeRune x = [x] := by simp [encodeRune, hx]
      have hux : stringsToUpper u [x] = [unicodeToUpper u x] := by
        rw [stringsToUpper_ascii u [x] (by simpa [IsASCII] using hx)]
        rfl
      simp [he, hux, stringsToLower_ascii u b' (IsASCII_cons.mp hsb).2]
  · simp [stringsToUpper_ascii u b hsb]

theorem not_mem_map_lower_hyphen (u : CaseTables) (a : GoString) (hsa : IsASCII a)
    (ha : 45 ∉ a) : 45 ∉ a.map (unicodeToLower u) :=
  not_mem_map_lower u a 45 hsa (by omega) ha

theorem not_mem_map_lower_underscore (u : CaseTables) (a : GoString) (hsa : IsASCII a)
    (ha : 95 ∉ a) : 95 ∉ a.map (unicodeToLower u) :=
  not_mem_map_lower u a 95 hsa (by omega) ha

theorem toLanguage_toLocale_append (u : CaseTables) (a b : GoString) (ha : 45 ∉ a)
    (h95 : 95 ∉ a) (hsa : IsASCII a) (hsb : IsASCII b) :
    toLanguage u (toLocale u (a ++ 45 :: b) false) =
      a.map (unicodeToLower u) ++ 45 :: b.map (unicodeToLower u) := by
  rw [toLocale_ascii_append u a b ha hsa hsb,
    toLanguage_append u _ _ (not_mem_map_lower_underscore u a hsa h95),
    stringsToLower_ascii u _ (IsASCII_map_lower u a hsa), map_lower_idem u a hsa,
    stringsToLower_ascii u _ (IsASCII_regionCase u b hsb), map_lower_regionCase u b hsb]

theorem toLocale_lower_append (u : CaseTables) (a b : GoString) (ha : 45 ∉ a)
    (hsa : IsASCII a) (hsb : IsASCII b) :
    toLocale u (a.map (unicodeToLower u) ++ 45 :: b.map (unicodeToLower u)) false =
      toLocale u (a ++ 45 :: b) false := by
  rw [toLocale_ascii_append u _ _ (not_mem_map_lower_hyphen u a hsa ha)
      (IsASCII_map_lower u a hsa) (IsASCII_map_lower u b hsb),
    toLocale_ascii_append u a b ha hsa hsb, map_lower_idem u a hsa,
    regionCase_map_lower u b hsb]

theorem toLocale_toLanguage (u : CaseTables) (s : GoString) (hs : IsASCII s) (h : 95 ∉ s) :
    toLocale u (toLanguage u s) false = toLocale u s false := by
  rw [toLanguage_ascii_of_not_mem u s hs h]
  by_cases hm : 45 ∈ s
  · obtain ⟨a, b, rfl, ha⟩ := exists_split_of_mem 45 s hm
    have hsa : IsASCII a := (IsASCII_append.mp hs).1
    have hsb : IsASCII b := (IsASCII_cons.mp (IsASCII_append.mp hs).2).2
    have e : (a ++ 45 :: b).map (unicodeToLower u) =
        a.map (unicodeToLower u) ++ 45 :: b.map (unicodeToLower u) := by
      simp [unicodeToLower]
    rw [e, toLocale_lower_append u a b ha hsa hsb]
  · rw [toLocale_of_not_mem u s false hm,
      toLocale_of_not_mem u _ false (not_mem_map_lower_hyphen u s hs hm),
      stringsToLower_ascii u s hs, stringsToLower_ascii u _ (IsASCII_map_lower u s hs),
      map_lower_idem u s hs]

theorem map_lower_of_lower (u : CaseTables) (s : GoString) (h : IsLowerASCII s) :
    s.map (unicodeToLower u) = s := by
  induction s with
  | nil => rfl
  | cons x rest ih =>
    have hx := h x (by simp)
    have hr : IsLowerASCII rest := fun b hb => h b (by simp [hb])
    have e : unicodeToLower u x = x := by
      simp only [unicodeToLower]
      split_ifs <;> omega
    simp [e, ih hr]

theorem IsASCII_of_lower (s : GoString) (h : IsLowerASCII s) : IsASCII s :=
  fun b hb => (h b hb).1

theorem takeWhile_append_cons (a b : GoString) (c : Nat) (h : c ∉ a) :
    (a ++ c :: b).takeWhile (fun x => x ≠ c) = a := by
  induction a with
  | nil => simp
  | cons x a ih =>
    have hx : x ≠ c := fun e => h (by simp [e])
    have hr : c ∉ a := fun e => h (by simp [e])
    have ih' := ih hr
    simp only [ne_eq, decide_not] at ih'
    simp [List.takeWhile, hx, ih']

theorem dropWhile_append_cons (a b : GoString) (c : Nat) (h : c ∉ a) :
    (a ++ c :: b).dropWhile (fun x => x ≠ c) = c :: b := by
  induction a with
  | nil => simp
  | cons x a ih =>
    have hx : x ≠ c := fun e => h (by simp [e])
    have hr : c ∉ a := fun e => h (by simp [e])
    have ih' := ih hr
    simp only [ne_eq, decide_not] at ih'
    simp [List.dropWhile, hx, ih']

theorem toLocale_append_lower (u : CaseTables) (a b : GoString) (h : 45 ∉ a) :
    toLocale u (a ++ 45 :: b) true =
      stringsToLower u a ++ 95 :: stringsToLower u b := by
  have hi : stringsIndex (a ++ 45 :: b) 45 = (a.length : Int) := by
    simp [stringsIndex, indexFrom_append 45 a b 0 h]
  simp only [toLocale, hi, ge_iff_le, Nat.cast_nonneg, if_true, Int.toNat_ofNat,
    take_append_cons, drop_append_cons]
  simp

theorem toLocale_append_cons (u : CaseTables) (a b : GoString) (x : Nat) (h : 45 ∉ a)
    (hb : 2 ≤ b.length) :
    toLocale u (a ++ 45 :: x :: b) false =
      stringsToLower u a ++ [95] ++ stringsToUpper u (encodeRune x) ++ stringsToLower u b := by
  have hl : (x :: b).length > 2 := by simp only [List.length_cons]; omega
  rw [toLocale_append u a (x :: b) h, if_pos hl]
  rfl

/-! ## The effects of one run -/

theorem I18n_gettext (u : CaseTables) (options : List Options) (req : Request) (g : Gettext) :
    (I18n u options req g).gettext =
      initLocale (prepareOptions options) g ++
        [GettextCall.SetLocale
          (toLocale u (resolve (prepareOptions options) req).lang false)] := by
  simp only [I18n]
  split
  · split <;> rfl
  · rfl

theorem I18n_mapped (u : CaseTables) (options : List Options) (req : Request) (g : Gettext) :
    (I18n u options req g).mapped =
      [{ Lang := toLanguage u (resolve (prepareOptions options) req).lang }] := by
  simp only [I18n]
  split
  · split <;> rfl
  · rfl

theorem I18n_cookies (u : CaseTables) (options : List Options) (req : Request) (g : Gettext) :
    (I18n u options req g).cookies =
      if (resolve (prepareOptions options) req).hasCookie then []
      else [languageCookie (prepareOptions options)
              (toLanguage u (resolve (prepareOptions options) req).lang)] := by
  have h : (I18n u options req g).cookies =
      if (!(resolve (prepareOptions options) req).hasCookie) = true then
        setCookie [] (prepareOptions options).CookieName
          (toLanguage u (resolve (prepareOptions options) req).lang)
          [Any.int (2 ^ 31 - 1), Any.string ([47] ++ trimPrefixSlash (prepareOptions options).SubURL)]
      else [] := by
    simp only [I18n]
    split
    · split <;> rfl
    · rfl
  rw [h]
  cases (resolve (prepareOptions options) req).hasCookie <;> simp [setCookie, languageCookie]

theorem I18n_of_noparam (u : CaseTables) (options : List Options) (req : Request) (g : Gettext)
    (h : req.FormValue (prepareOptions options).Parameter = []) :
    (I18n u options req g).redirects = [] ∧ (I18n u options req g).panicked = false := by
  have hr := resolve_isNeedRedir (prepareOptions options) req
  simp only [h, ne_eq, not_true_eq_false, decide_False] at hr
  simp [I18n, hr]

theorem I18n_of_param_query (u : CaseTables) (options : List Options) (req : Request)
    (g : Gettext) (path query : GoString)
    (h : req.FormValue (prepareOptions options).Parameter ≠ [])
    (hq : req.RequestURI = path ++ 63 :: query) (hp : 63 ∉ path) :
    (I18n u options req g).redirects = [((prepareOptions options).SubURL ++ path, StatusFound)]
      ∧ (I18n u options req g).panicked = false := by
  have hr := resolve_isNeedRedir (prepareOptions options) req
  simp only [h, ne_eq, not_false_eq_true, decide_True] at hr
  simp [I18n, hr, prepareOptions_Redirect, hq, sliceTo_append 63 path query hp]

theorem I18n_of_param_noquery (u : CaseTables) (options : List Options) (req : Request)
    (g : Gettext) (h : req.FormValue (prepareOptions options).Parameter ≠ [])
    (hq : 63 ∉ req.RequestURI) :
    (I18n u options req g).redirects = [] ∧ (I18n u options req g).panicked = true := by
  have hr := resolve_isNeedRedir (prepareOptions options) req
  simp only [h, ne_eq, not_false_eq_true, decide_True] at hr
  simp [I18n, hr, prepareOptions_Redirect, sliceTo_of_not_mem 63 _ hq]

theorem bindCalls_append (g h : Gettext) : bindCalls (g ++ h) = bindCalls g + bindCalls h := by
  simp [bindCalls]

theorem bindCalls_initLocale (opt : Options) (g : Gettext) :
    bindCalls (initLocale opt g) = bindCalls g + 1 := by
  simp [initLocale, Once.Do, bindCalls]

theorem bindCalls_I18n (u : CaseTables) (options : List Options) (req : Request) (g : Gettext) :
    bindCalls (I18n u options req g).gettext = bindCalls g + 1 := by
  rw [I18n_gettext, bindCalls_append, bindCalls_initLocale]
  simp [bindCalls]

theorem I18n_of_decodable_cookie (u : CaseTables) (options : List Options) (req : Request)
    (g : Gettext) (raw v : GoString)
    (hp : req.FormValue (prepareOptions options).Parameter = [])
    (hc : req.Cookie (prepareOptions options).CookieName = some raw)
    (hd : QueryUnescape raw = some v) (hv : v ≠ []) :
    (resolve (prepareOptions options) req).lang = v ∧
    chosenSource (prepareOptions options) req = Source.Cookie ∧
    (I18n u options req g).cookies = [] ∧
    (I18n u options req g).redirects = [] ∧
    (I18n u options req g).panicked = false ∧
    (I18n u options req g).mapped = [{ Lang := toLanguage u v }] := by
  have hg : getCookie req (prepareOptions options).CookieName = (v, none) := by
    simp [getCookie, hc, hd]
  have hl : (resolve (prepareOptions options) req).lang = v := by
    rw [resolve_lang_of_noparam _ _ hp, hg]
    simp [hv]
  have hh : (resolve (prepareOptions options) req).hasCookie = true := by
    rw [resolve_hasCookie, hg]
    simp [hp]
  refine ⟨hl, ?_, ?_, (I18n_of_noparam u options req g hp).1,
    (I18n_of_noparam u options req g hp).2, by rw [I18n_mapped, hl]⟩
  · simp [chosenSource, hp, hc, hd, hv]
  · rw [I18n_cookies, hh]
    rfl

theorem prepareOptions_Redirect_irrelevant (o : Options) (rest : List Options) (r : Bool) :
    prepareOptions ({ o with Redirect := r } :: rest) = prepareOptions (o :: rest) := by
  simp only [prepareOptions]
  cases r <;> cases o.Redirect <;> rfl

theorem resolve_eq_default_step (opt : Options) (req : Request) :
    resolve opt req =
      if (resolveBeforeDefault opt req).lang.length = 0 then
        { resolveBeforeDefault opt req with lang := opt.DefaultLang, isNeedRedir := false }
      else resolveBeforeDefault opt req := rfl

theorem resolveBeforeDefault_of_param (opt : Options) (req : Request)
    (h : req.FormValue opt.Parameter ≠ []) :
    resolveBeforeDefault opt req =
      { lang := req.FormValue opt.Parameter, isNeedRedir := true, hasCookie := false } := by
  simp [resolveBeforeDefault, h]

theorem resolveBeforeDefault_isNeedRedir (opt : Options) (req : Request) :
    (resolveBeforeDefault opt req).isNeedRedir = decide (req.FormValue opt.Parameter ≠ []) := by
  by_cases h : req.FormValue opt.Parameter = []
  · simp only [resolveBeforeDefault, h, List.length_nil, if_true]
    split_ifs <;> simp
  · simp [resolveBeforeDefault_of_param opt req h, h]

theorem chosenSource_eq_parameter (opt : Options) (req : Request) :
    chosenSource opt req = Source.Parameter ↔ req.FormValue opt.Parameter ≠ [] := by
  by_cases h : req.FormValue opt.Parameter = []
  · simp only [chosenSource, h, List.length_nil, ne_eq, not_true_eq_false, if_false, iff_false]
    split_ifs <;> simp
  · simp [chosenSource, h]

/-! ## The resolver: safety, cookie write, catalog binding (C1-C3) -/

/-- C1, the defect: the handler does not run to completion on every request.
When the language parameter is non-empty and `RequestURI` holds no `?` (a
parameter sent in a form body, an empty `RequestURI`), `strings.Index` returns
`-1` and the slice `req.RequestURI[:-1]` of line 137 panics, after the language
was published. -/
theorem I18n_panics_without_query (u : CaseTables) (options : List Options) (req : Request)
    (g : Gettext) (hp : req.FormValue (prepareOptions options).Parameter ≠ [])
    (hq : 63 ∉ req.RequestURI) :
    (I18n u options req g).panicked = true ∧
    (I18n u options req g).mapped =
      [{ Lang := toLanguage u (req.FormValue (prepareOptions options).Parameter) }] := by
  refine ⟨(I18n_of_param_noquery u options req g hp hq).2, ?_⟩
  rw [I18n_mapped, resolve_of_param _ _ hp]

/-- Witness of C1: `POST /foobar` with `lang=en-us` in the form body panics; so
does the same request with an empty `RequestURI`. -/
theorem I18n_panics_without_query_witness :
    (reqParamForm.FormValue (prepareOptions optLang).Parameter ≠ [] ∧
      63 ∉ reqParamForm.RequestURI) ∧
    (I18n latin1 optLang { reqParamForm with RequestURI := [] } []).panicked = true ∧
    ((I18n latin1 optLang reqParamForm []).panicked = true ∧
      (I18n latin1 optLang reqParamForm []).mapped =
        [{ Lang := toLanguage latin1
            (reqParamForm.FormValue (prepareOptions optLang).Parameter) }]) :=
  ⟨⟨by decide, by decide⟩, by decide,
   I18n_panics_without_query latin1 optLang reqParamForm [] (by decide) (by decide)⟩

/-- C2 as stated fails: for the request that carries the cookie `_language=`
(empty value) and `Accept-Language: en-US`, the chosen tag comes from the
header, so the source is not the cookie, and yet no cookie is written. -/
theorem cookie_write_iff_source_counterexample :
    (chosenSource (prepareOptions []) reqEmptyCookie = Source.Header ∧
      (resolve (prepareOptions []) reqEmptyCookie).lang = str "en-US" ∧
      (I18n latin1 [] reqEmptyCookie []).cookies = []) ∧
    ¬ ((I18n latin1 [] reqEmptyCookie []).cookies ≠ [] ↔
        chosenSource (prepareOptions []) reqEmptyCookie ≠ Source.Cookie) := by
  decide

/-- C2, amended: the cookie is written (once) exactly when `hasCookie` is false,
that is when the language parameter is non-empty or the request carries no
language cookie that percent-decodes (`hasDecodableCookie`); a cookie that decodes, be it to the empty
string, suppresses the write.  So a tag taken from the parameter is always
written, a tag taken from the cookie never, and a tag taken from the header or
the default is written exactly when no decodable cookie came with the
request. -/
theorem cookie_written_iff_no_decodable_cookie (u : CaseTables) (options : List Options)
    (req : Request) (g : Gettext) :
    ((I18n u options req g).cookies.length =
        if req.FormValue (prepareOptions options).Parameter = [] ∧
            hasDecodableCookie req (prepareOptions options).CookieName = true
        then 0 else 1) ∧
    (chosenSource (prepareOptions options) req = Source.Parameter →
      (I18n u options req g).cookies.length = 1) ∧
    (chosenSource (prepareOptions options) req = Source.Cookie →
      (I18n u options req g).cookies = []) ∧
    (chosenSource (prepareOptions options) req = Source.Header ∨
        chosenSource (prepareOptions options) req = Source.Default →
      ((I18n u options req g).cookies.length = 1 ↔
        hasDecodableCookie req (prepareOptions options).CookieName = false)) := by
  have hh := resolve_hasCookie (prepareOptions options) req
  have hc := I18n_cookies u options req g
  generalize (prepareOptions options) = opt at *
  generalize (I18n u options req g).cookies = cs at *
  have key : (getCookie req opt.CookieName).2 = none ↔
      hasDecodableCookie req opt.CookieName = true := by
    simp only [getCookie, hasDecodableCookie]
    cases hraw : req.Cookie opt.CookieName with
    | none => simp
    | some raw =>
      cases hv : QueryUnescape raw with
      | none => simp [hv]
      | some v => simp [hv]
  by_cases hp : req.FormValue opt.Parameter = []
  · by_cases hk : hasDecodableCookie req opt.CookieName = true
    · have h1 : (resolve opt req).hasCookie = true := by
        rw [hh]; simp [hp, key.mpr hk]
      simp only [h1, if_true] at hc
      subst hc
      refine ⟨by simp [hp, hk], ?_, by simp, by simp [hk]⟩
      intro hs
      simp only [chosenSource, hp, List.length_nil, ne_eq, not_true_eq_false, if_false] at hs
      split_ifs at hs
    · have h1 : (resolve opt req).hasCookie = false := by
        rw [hh]
        have : ¬ (getCookie req opt.CookieName).2 = none := fun e => hk (key.mp e)
        simp [hp, this]
      simp only [h1] at hc
      subst hc
      refine ⟨by simp [hp, hk], by simp, ?_, by simp [hk]⟩
      intro hs
      exfalso
      simp only [chosenSource, hp, List.length_nil, ne_eq, not_true_eq_false, if_false] at hs
      split_ifs at hs with h2
      apply hk
      simp only [hasDecodableCookie]
      cases hv : (req.Cookie opt.CookieName).bind QueryUnescape with
      | none => simp [hv] at h2
      | some v => rfl
  · have h1 : (resolve opt req).hasCookie = false := by
      rw [hh]; simp [hp]
    simp only [h1] at hc
    subst hc
    have hs : chosenSource opt req = Source.Parameter := by
      simp [chosenSource, hp]
    simp [hp, hs]

/-- C3, the defect: the catalog is bound once per request, not once per process.
`initLocale` declares its `sync.Once` in its own body, so each call starts from
a fresh `Once` and runs the binding: after `n` requests handled one after
another, `gettext.BindTextdomain` has been called `n` more times. -/
theorem bindCalls_serve (u : CaseTables) (options : List Options) (reqs : List Request)
    (g : Gettext) :
    bindCalls (serve u options reqs g) = bindCalls g + reqs.length := by
  induction reqs generalizing g with
  | nil => simp [serve]
  | cons req reqs ih =>
    simp only [serve, ih, bindCalls_I18n, List.length_cons]
    omega

/-! ## The precedence chain (C4-C8) -/

/-- C4: a non-empty language parameter `p` is the chosen tag, whatever the cookie
and the `Accept-Language` header hold; the published `Locale.Lang` is
`toLanguage(p)` and the locale given to `gettext.SetLocale` is
`toLocale(p, false)`. -/
theorem parameter_precedence (u : CaseTables) (options : List Options) (req : Request)
    (g : Gettext) (p : GoString)
    (hp : req.FormValue (prepareOptions options).Parameter = p) (hne : p ≠ []) :
    (resolve (prepareOptions options) req).lang = p ∧
    chosenSource (prepareOptions options) req = Source.Parameter ∧
    (I18n u options req g).mapped = [{ Lang := toLanguage u p }] ∧
    (I18n u options req g).gettext.getLast? = some (GettextCall.SetLocale (toLocale u p false)) := by
  subst hp
  have hr := resolve_of_param (prepareOptions options) req hne
  refine ⟨by rw [hr], ?_, by rw [I18n_mapped, hr], by rw [I18n_gettext, hr]; simp⟩
  simp [chosenSource, hne]

/-- Witness of C4: `GET /foobar?lang=en-us`, sent with a cookie and a header that
name other languages, publishes `en-us` and sets the locale `en_US`. -/
theorem parameter_precedence_witness :
    (reqParamAll.FormValue (prepareOptions optLang).Parameter = str "en-us" ∧
      str "en-us" ≠ []) ∧
    (toLanguage latin1 (str "en-us") = str "en-us" ∧
      toLocale latin1 (str "en-us") false = str "en_US") ∧
    ((resolve (prepareOptions optLang) reqParamAll).lang = str "en-us" ∧
      chosenSource (prepareOptions optLang) reqParamAll = Source.Parameter ∧
      (I18n latin1 optLang reqParamAll []).mapped
        = [{ Lang := toLanguage latin1 (str "en-us") }] ∧
      (I18n latin1 optLang reqParamAll []).gettext.getLast?
        = some (GettextCall.SetLocale (toLocale latin1 (str "en-us") false))) :=
  ⟨⟨by decide, by decide⟩, ⟨by decide, by decide⟩,
   parameter_precedence latin1 optLang reqParamAll [] (str "en-us") (by decide) (by decide)⟩

/-- C5: with an empty language parameter, a language cookie whose value
percent-decodes to a non-empty `v` gives the chosen tag `v`, whatever the
`Accept-Language` header holds; no cookie is written, no redirect is issued, and
the published language is `toLanguage(v)`. -/
theorem cookie_second_source (u : CaseTables) (options : List Options) (req : Request)
    (g : Gettext) (raw v : GoString)
    (hp : req.FormValue (prepareOptions options).Parameter = [])
    (hc : req.Cookie (prepareOptions options).CookieName = some raw)
    (hd : QueryUnescape raw = some v) (hv : v ≠ []) :
    (resolve (prepareOptions options) req).lang = v ∧
    chosenSource (prepareOptions options) req = Source.Cookie ∧
    (I18n u options req g).cookies = [] ∧
    (I18n u options req g).redirects = [] ∧
    (I18n u options req g).panicked = false ∧
    (I18n u options req g).mapped = [{ Lang := toLanguage u v }] :=
  I18n_of_decodable_cookie u options req g raw v hp hc hd hv

/-- Witness of C5: the cookie `_language=en-us` (with `Accept-Language: fr-FR`)
publishes `en-us`, writes no cookie and does not redirect. -/
theorem cookie_second_source_witness :
    (reqCookie.FormValue (prepareOptions []).Parameter = [] ∧
      reqCookie.Cookie (prepareOptions []).CookieName = some (str "en-us") ∧
      QueryUnescape (str "en-us") = some (str "en-us") ∧ str "en-us" ≠ []) ∧
    toLanguage latin1 (str "en-us") = str "en-us" ∧
    ((resolve (prepareOptions []) reqCookie).lang = str "en-us" ∧
      chosenSource (prepareOptions []) reqCookie = Source.Cookie ∧
      (I18n latin1 [] reqCookie []).cookies = [] ∧
      (I18n latin1 [] reqCookie []).redirects = [] ∧
      (I18n latin1 [] reqCookie []).panicked = false ∧
      (I18n latin1 [] reqCookie []).mapped = [{ Lang := toLanguage latin1 (str "en-us") }]) :=
  ⟨⟨by decide, by decide, by decide, by decide⟩, by decide,
   cookie_second_source latin1 [] reqCookie [] (str "en-us") (str "en-us")
     (by decide) (by decide) (by decide) (by decide)⟩

/-- C6, the defect: with no language parameter and no language cookie, the chosen
tag is the first 5 *bytes* of the `Accept-Language` header when the header is
longer than 4 bytes, and the configured default language otherwise; in both
cases the cookie is written, with the published language `toLanguage` of that
tag.  Lines 119-120 count bytes where their comment says letters: a header with
a character of several bytes among its first five is cut inside a character, or
taken although it has 4 characters only. -/
theorem header_then_default (u : CaseTables) (options : List Options) (req : Request)
    (g : Gettext)
    (hp : req.FormValue (prepareOptions options).Parameter = [])
    (hc : req.Cookie (prepareOptions options).CookieName = none) :
    ((req.Header (str "Accept-Language")).length > 4 →
      (resolve (prepareOptions options) req).lang = (req.Header (str "Accept-Language")).take 5 ∧
      chosenSource (prepareOptions options) req = Source.Header) ∧
    ((req.Header (str "Accept-Language")).length ≤ 4 →
      (resolve (prepareOptions options) req).lang = (prepareOptions options).DefaultLang ∧
      chosenSource (prepareOptions options) req = Source.Default) ∧
    (I18n u options req g).cookies =
      [languageCookie (prepareOptions options)
        (toLanguage u (resolve (prepareOptions options) req).lang)] ∧
    (I18n u options req g).mapped =
      [{ Lang := toLanguage u (resolve (prepareOptions options) req).lang }] := by
  have hg : getCookie req (prepareOptions options).CookieName = ([], some GoError.ErrNoCookie) := by
    simp [getCookie, hc]
  have hl := resolve_lang_of_noparam _ _ hp
  rw [hg] at hl
  simp only [ne_eq, not_true_eq_false, if_false] at hl
  have hh : (resolve (prepareOptions options) req).hasCookie = false := by
    rw [resolve_hasCookie, hg]
    simp
  refine ⟨?_, ?_, by rw [I18n_cookies, hh]; rfl, I18n_mapped u options req g⟩
  · intro h
    rw [hl]
    simp [chosenSource, hp, hc, h]
  · intro h
    have h' : ¬ (req.Header (str "Accept-Language")).length > 4 := by omega
    rw [hl]
    simp [chosenSource, hp, hc, h']

/-- Witness of C6, from the test "Set by Accept-Language": the header `en-US` with
default options publishes `Locale.Lang = "en-us"` and writes the cookie.  The
header `abcdé` (5 characters) gives the tag `abcd` followed by the lone byte
0xC3, published as `abcd` and U+FFFD; the header `éa-b` (4 characters, 5 bytes)
is taken as the tag where the default `zh_CN` was due. -/
theorem header_then_default_witness :
    (reqHeader.FormValue (prepareOptions [{}]).Parameter = [] ∧
      reqHeader.Cookie (prepareOptions [{}]).CookieName = none) ∧
    (I18n latin1 [{}] reqHeader []).mapped = [{ Lang := str "en-us" }] ∧
    (runeCount (reqHeaderAccent.Header (str "Accept-Language")) 0 = 5 ∧
      (reqHeaderAccent.Header (str "Accept-Language")).length = 6 ∧
      (resolve (prepareOptions [{}]) reqHeaderAccent).lang = str "abcd" ++ [0xC3] ∧
      (resolve (prepareOptions [{}]) reqHeaderAccent).lang
        ≠ reqHeaderAccent.Header (str "Accept-Language") ∧
      (I18n latin1 [{}] reqHeaderAccent []).mapped
        = [{ Lang := str "abcd" ++ encodeRune 0xFFFD }]) ∧
    (runeCount (reqHeaderFourChars.Header (str "Accept-Language")) 0 = 4 ∧
      (reqHeaderFourChars.Header (str "Accept-Language")).length = 5 ∧
      (resolve (prepareOptions [{}]) reqHeaderFourChars).lang
        = reqHeaderFourChars.Header (str "Accept-Language") ∧
      (resolve (prepareOptions [{}]) reqHeaderFourChars).lang
        ≠ (prepareOptions [{}]).DefaultLang) ∧
    (((reqHeader.Header (str "Accept-Language")).length > 4 →
      (resolve (prepareOptions [{}]) reqHeader).lang
        = (reqHeader.Header (str "Accept-Language")).take 5 ∧
      chosenSource (prepareOptions [{}]) reqHeader = Source.Header) ∧
    ((reqHeader.Header (str "Accept-Language")).length ≤ 4 →
      (resolve (prepareOptions [{}]) reqHeader).lang = (prepareOptions [{}]).DefaultLang ∧
      chosenSource (prepareOptions [{}]) reqHeader = Source.Default) ∧
    (I18n latin1 [{}] reqHeader []).cookies =
      [languageCookie (prepareOptions [{}])
        (toLanguage latin1 (resolve (prepareOptions [{}]) reqHeader).lang)] ∧
    (I18n latin1 [{}] reqHeader []).mapped =
      [{ Lang := toLanguage latin1 (resolve (prepareOptions [{}]) reqHeader).lang }]) :=
  ⟨⟨by decide, by decide⟩, by decide,
   ⟨by decide, by decide, by decide, by decide, by decide⟩,
   ⟨by decide, by decide, by decide, by decide⟩,
   header_then_default latin1 [{}] reqHeader [] (by decide) (by decide)⟩

/-- C7: with an empty language parameter, a language cookie that fails to
percent-decode leaves no trace: the run of the handler (chosen tag, locale given
to gettext, published language, cookie write, redirect) is the run on the same
request without the cookie, and it ends without a panic. -/
theorem malformed_cookie_as_absent (u : CaseTables) (options : List Options) (req : Request)
    (g : Gettext) (raw : GoString)
    (hp : req.FormValue (prepareOptions options).Parameter = [])
    (hc : req.Cookie (prepareOptions options).CookieName = some raw)
    (hd : QueryUnescape raw = none) :
    resolve (prepareOptions options) req =
      resolve (prepareOptions options) (req.withoutCookie (prepareOptions options).CookieName) ∧
    I18n u options req g =
      I18n u options (req.withoutCookie (prepareOptions options).CookieName) g ∧
    (I18n u options req g).panicked = false := by
  have hg : getCookie req (prepareOptions options).CookieName =
      ([], some GoError.EscapeError) := by
    simp [getCookie, hc, hd]
  have hg' : getCookie (req.withoutCookie (prepareOptions options).CookieName)
      (prepareOptions options).CookieName = ([], some GoError.ErrNoCookie) := by
    simp [getCookie, Request.withoutCookie]
  have hr : resolve (prepareOptions options) req =
      resolve (prepareOptions options)
        (req.withoutCookie (prepareOptions options).CookieName) := by
    simp only [resolve, hg, hg']
    rfl
  refine ⟨hr, ?_, (I18n_of_noparam u options req g hp).2⟩
  simp only [I18n, hr]
  rfl

/-- Witness of C7: the cookie `_language=%zz` does not decode; the request is
handled as the same request without cookie. -/
theorem malformed_cookie_as_absent_witness :
    (reqBadCookie.FormValue (prepareOptions []).Parameter = [] ∧
      reqBadCookie.Cookie (prepareOptions []).CookieName = some (str "%zz") ∧
      QueryUnescape (str "%zz") = none) ∧
    (resolve (prepareOptions []) reqBadCookie =
      resolve (prepareOptions []) (reqBadCookie.withoutCookie (prepareOptions []).CookieName) ∧
    I18n latin1 [] reqBadCookie [] =
      I18n latin1 [] (reqBadCookie.withoutCookie (prepareOptions []).CookieName) [] ∧
    (I18n latin1 [] reqBadCookie []).panicked = false) :=
  ⟨⟨by decide, by decide, by decide⟩,
   malformed_cookie_as_absent latin1 [] reqBadCookie [] (str "%zz")
     (by decide) (by decide) (by decide)⟩

/-- C8, the defect: a request with a non-empty language parameter is redirected
only when its `RequestURI` holds a `?`.  With `RequestURI = path ++ "?" ++ query`
(`path` without `?`) the handler calls `http.Redirect` once, with the location
`opt.SubURL ++ path` (the sub-path with its trailing `/` trimmed) and the status
302; with no `?` in `RequestURI` the slice of line 137 panics and no redirect is
issued. -/
theorem redirect_only_with_query (u : CaseTables) (options : List Options) (req : Request)
    (g : Gettext) (hp : req.FormValue (prepareOptions options).Parameter ≠ []) :
    (∀ path query : GoString, req.RequestURI = path ++ 63 :: query → 63 ∉ path →
      (I18n u options req g).redirects =
          [(trimSuffixSlash (options.headD {}).SubURL ++ path, 302)] ∧
        (I18n u options req g).panicked = false) ∧
    (63 ∉ req.RequestURI →
      (I18n u options req g).redirects = [] ∧ (I18n u options req g).panicked = true) := by
  refine ⟨?_, fun hq => I18n_of_param_noquery u options req g hp hq⟩
  intro path query hq hpath
  have h := I18n_of_param_query u options req g path query hp hq hpath
  have hs : (prepareOptions options).SubURL = trimSuffixSlash (options.headD {}).SubURL := by
    cases options <;> rfl
  rw [hs] at h
  exact h

/-- Witness of C8: the request of the test, `GET /foobar?lang=en-us`, is redirected
with status 302 to `/foobar`; `POST /foobar` with `lang=en-us` in its form body
gets no redirect and ends in a panic. -/
theorem redirect_only_with_query_witness :
    reqParamForm.FormValue (prepareOptions optLang).Parameter ≠ [] ∧
    ((I18n latin1 optLang reqParamQuery []).redirects = [(str "/foobar", 302)] ∧
      (I18n latin1 optLang reqParamQuery []).panicked = false) ∧
    (63 ∉ reqParamForm.RequestURI ∧
      (I18n latin1 optLang reqParamForm []).redirects = [] ∧
      (I18n latin1 optLang reqParamForm []).panicked = true) :=
  ⟨by decide, by decide, by decide,
   (redirect_only_with_query latin1 optLang reqParamForm [] (by decide)).2 (by decide)⟩

/-! ## The published language and the cookie round trip (C9, C10) -/

/-- C9 as stated fails: for `GET /foobar?lang=zh_Hans-CN` the chosen tag is
`zh_Hans-CN`, the locale given to gettext is `zh_hans_CN`, whose tag form is
`zh-hans_cn`, and the published `Locale.Lang` is `zh-hans-cn`.  It also fails
without any `_`: for the tag `en-` followed by U+00B5 (micro sign) the locale
ends in U+039C, whose tag form ends in U+03BC, and the published language ends
in U+00B5. -/
theorem published_round_trip_counterexample :
    ((resolve (prepareOptions optLang) reqParamScript).lang = str "zh_Hans-CN" ∧
      (I18n latin1 optLang reqParamScript []).gettext.getLast?
        = some (GettextCall.SetLocale (str "zh_hans_CN")) ∧
      toLanguage latin1 (toLocale latin1 (str "zh_Hans-CN") false) = str "zh-hans_cn" ∧
      (I18n latin1 optLang reqParamScript []).mapped = [{ Lang := str "zh-hans-cn" }] ∧
      (I18n latin1 optLang reqParamScript []).mapped ≠
        [{ Lang := toLanguage latin1
            (toLocale latin1 (resolve (prepareOptions optLang) reqParamScript).lang false) }]) ∧
    ((resolve (prepareOptions optLang) reqParamMicro).lang = str "en-" ++ encodeRune 0xB5 ∧
      (I18n latin1 optLang reqParamMicro []).gettext.getLast?
        = some (GettextCall.SetLocale (str "en_" ++ encodeRune 0x39C)) ∧
      toLanguage latin1 (toLocale latin1 (str "en-" ++ encodeRune 0xB5) false)
        = str "en-" ++ encodeRune 0x3BC ∧
      (I18n latin1 optLang reqParamMicro []).mapped
        = [{ Lang := str "en-" ++ encodeRune 0xB5 }] ∧
      (I18n latin1 optLang reqParamMicro []).mapped ≠
        [{ Lang := toLanguage latin1
            (toLocale latin1 (resolve (prepareOptions optLang) reqParamMicro).lang false) }]) := by
  decide

/-- C9, amended: for every request the published `Locale.Lang` is
`toLanguage(lang)`, computed from the chosen tag `lang` itself (line 129), while
gettext receives `toLocale(lang, false)`.  The published language equals
`toLanguage(toLocale(lang, false))` whenever `lang` holds no `-` (for an ASCII
tag, and for any tag when rune lower-casing is stable), and whenever `lang` is
an ASCII tag that holds no `_`. -/
theorem published_is_toLanguage_of_tag (u : CaseTables) (options : List Options)
    (req : Request) (g : Gettext) :
    (I18n u options req g).mapped =
      [{ Lang := toLanguage u (resolve (prepareOptions options) req).lang }] ∧
    (I18n u options req g).gettext.getLast? =
      some (GettextCall.SetLocale
        (toLocale u (resolve (prepareOptions options) req).lang false)) ∧
    ((45 ∉ (resolve (prepareOptions options) req).lang ∧
        (LowerStable u ∨ IsASCII (resolve (prepareOptions options) req).lang)) ∨
      (IsASCII (resolve (prepareOptions options) req).lang ∧
        95 ∉ (resolve (prepareOptions options) req).lang) →
      (I18n u options req g).mapped =
        [{ Lang := toLanguage u
            (toLocale u (resolve (prepareOptions options) req).lang false) }]) := by
  refine ⟨I18n_mapped u options req g, by rw [I18n_gettext]; simp, ?_⟩
  rintro (⟨h45, h⟩ | ⟨hs, h95⟩)
  · rw [I18n_mapped, toLanguage_toLocale_of_no_hyphen u _ h h45]
  · rw [I18n_mapped, toLanguage_toLocale u _ hs h95]

/-- Instances of C9: with default options, the request without parameter, cookie
and header resolves to the default `zh_CN` and the request with
`Accept-Language: en-US` to `en-US`; both publish the tag form of the locale
given to gettext (`zh-cn` for `zh_cn`, `en-us` for `en_US`). -/
theorem published_is_toLanguage_of_tag_witness :
    ((resolve (prepareOptions []) emptyRequest).lang = str "zh_CN" ∧
      45 ∉ (resolve (prepareOptions []) emptyRequest).lang ∧
      IsASCII (resolve (prepareOptions []) emptyRequest).lang ∧
      (I18n latin1 [] emptyRequest []).mapped = [{ Lang := str "zh-cn" }] ∧
      (I18n latin1 [] emptyRequest []).mapped =
        [{ Lang := toLanguage latin1
            (toLocale latin1 (resolve (prepareOptions []) emptyRequest).lang false) }]) ∧
    ((resolve (prepareOptions []) reqHeader).lang = str "en-US" ∧
      IsASCII (resolve (prepareOptions []) reqHeader).lang ∧
      95 ∉ (resolve (prepareOptions []) reqHeader).lang ∧
      (I18n latin1 [] reqHeader []).mapped = [{ Lang := str "en-us" }] ∧
      (I18n latin1 [] reqHeader []).mapped =
        [{ Lang := toLanguage latin1
            (toLocale latin1 (resolve (prepareOptions []) reqHeader).lang false) }]) :=
  ⟨⟨by decide, by decide, by decide, by decide,
    (published_is_toLanguage_of_tag latin1 [] emptyRequest []).2.2
      (Or.inl ⟨by decide, Or.inr (by decide)⟩)⟩,
   ⟨by decide, by decide, by decide, by decide,
    (published_is_toLanguage_of_tag latin1 [] reqHeader []).2.2
      (Or.inr ⟨by decide, by decide⟩)⟩⟩

/-- C10 as stated fails: `GET /foobar?lang=zh_Hans_CN` publishes `zh-hans_cn` and
writes the cookie `_language=zh-hans_cn`; the follow-up request that carries
this cookie and no parameter publishes `zh-hans-cn`. -/
theorem cookie_round_trip_counterexample :
    (I18n latin1 optLang reqParamUnderscores []).mapped = [{ Lang := str "zh-hans_cn" }] ∧
    ((I18n latin1 optLang reqParamUnderscores []).cookies.map (fun c => (c.Name, c.Value)))
      = [(str "_language", str "zh-hans_cn")] ∧
    reqFollowUnderscores.FormValue (prepareOptions optLang).Parameter = [] ∧
    reqFollowUnderscores.Cookie (prepareOptions optLang).CookieName = some (str "zh-hans_cn") ∧
    (I18n latin1 optLang reqFollowUnderscores []).mapped = [{ Lang := str "zh-hans-cn" }] ∧
    (I18n latin1 optLang reqFollowUnderscores []).mapped ≠
      (I18n latin1 optLang reqParamUnderscores []).mapped ∧
    toLanguage latin1 (toLanguage latin1 (str "zh_Hans_CN")) ≠
      toLanguage latin1 (str "zh_Hans_CN") := by
  decide

/-- C10, amended: when the handling of a request writes the language cookie, a
follow-up request that carries that cookie and no language parameter takes its
tag from the cookie, writes no cookie, issues no redirect and publishes
`toLanguage` of the language the first request published; this is the same
`Locale.Lang` whenever the tag chosen by the first request holds at most one `_`
(for an ASCII tag, and for any tag when rune lower-casing is stable: the lower
case of a rune is a valid rune other than `_` and is its own lower case). -/
theorem cookie_round_trip (u : CaseTables) (options : List Options) (req₁ req₂ : Request)
    (g₁ g₂ : Gettext) (c : Cookie)
    (hw : c ∈ (I18n u options req₁ g₁).cookies)
    (hp : req₂.FormValue (prepareOptions options).Parameter = [])
    (hc : req₂.Cookie (prepareOptions options).CookieName = some c.Value) :
    chosenSource (prepareOptions options) req₂ = Source.Cookie ∧
    (I18n u options req₂ g₂).cookies = [] ∧
    (I18n u options req₂ g₂).redirects = [] ∧
    (I18n u options req₂ g₂).panicked = false ∧
    (I18n u options req₂ g₂).mapped =
      [{ Lang := toLanguage u (toLanguage u (resolve (prepareOptions options) req₁).lang) }] ∧
    (LowerStable u ∨ IsASCII (resolve (prepareOptions options) req₁).lang →
      (resolve (prepareOptions options) req₁).lang.count 95 ≤ 1 →
      (I18n u options req₂ g₂).mapped = (I18n u options req₁ g₁).mapped) := by
  have hv : c.Value = QueryEscape (toLanguage u (resolve (prepareOptions options) req₁).lang) := by
    rw [I18n_cookies] at hw
    split_ifs at hw
    · simp at hw
    · rw [List.mem_singleton.mp hw]
      rfl
  have hd : QueryUnescape c.Value =
      some (toLanguage u (resolve (prepareOptions options) req₁).lang) := by
    rw [hv]
    exact QueryUnescape_QueryEscape _ (IsBytes_toLanguage u _)
  have hne : toLanguage u (resolve (prepareOptions options) req₁).lang ≠ [] :=
    toLanguage_ne_nil u _ (resolve_lang_ne_nil _ _ (prepareOptions_DefaultLang_ne options))
  have h5 := I18n_of_decodable_cookie u options req₂ g₂ c.Value _ hp hc hd hne
  refine ⟨h5.2.1, h5.2.2.1, h5.2.2.2.1, h5.2.2.2.2.1, h5.2.2.2.2.2, ?_⟩
  intro hs h
  rw [h5.2.2.2.2.2, I18n_mapped, toLanguage_idem u _ hs h]

/-- Witness of C10: the response to `GET /foobar` with `Accept-Language: en-US`
sets the cookie `_language=en-us`; the follow-up request with that cookie
publishes the same `en-us`, writes no cookie and is not redirected. -/
theorem cookie_round_trip_witness :
    (languageCookie (prepareOptions []) (str "en-us") ∈ (I18n latin1 [] reqHeader []).cookies ∧
      reqFollowHeader.FormValue (prepareOptions []).Parameter = [] ∧
      reqFollowHeader.Cookie (prepareOptions []).CookieName
        = some (languageCookie (prepareOptions []) (str "en-us")).Value) ∧
    (LowerStable latin1 ∧ IsASCII (resolve (prepareOptions []) reqHeader).lang ∧
      (resolve (prepareOptions []) reqHeader).lang.count 95 ≤ 1) ∧
    ((I18n latin1 [] reqHeader []).mapped = [{ Lang := str "en-us" }] ∧
      (I18n latin1 [] reqFollowHeader []).mapped = [{ Lang := str "en-us" }]) ∧
    (chosenSource (prepareOptions []) reqFollowHeader = Source.Cookie ∧
    (I18n latin1 [] reqFollowHeader []).cookies = [] ∧
    (I18n latin1 [] reqFollowHeader []).redirects = [] ∧
    (I18n latin1 [] reqFollowHeader []).panicked = false ∧
    (I18n latin1 [] reqFollowHeader []).mapped =
      [{ Lang := toLanguage latin1
          (toLanguage latin1 (resolve (prepareOptions []) reqHeader).lang) }] ∧
    (LowerStable latin1 ∨ IsASCII (resolve (prepareOptions []) reqHeader).lang →
      (resolve (prepareOptions []) reqHeader).lang.count 95 ≤ 1 →
      (I18n latin1 [] reqFollowHeader []).mapped = (I18n latin1 [] reqHeader []).mapped)) :=
  ⟨⟨by decide, by decide, by decide⟩, ⟨LowerStable_latin1, by decide, by decide⟩,
   ⟨by decide, by decide⟩,
   cookie_round_trip latin1 [] reqHeader reqFollowHeader [] []
     (languageCookie (prepareOptions []) (str "en-us")) (by decide) (by decide) (by decide)⟩

/-! ## The codec (C11-C15) -/

/-- C11 as stated fails: the tag `zh_hans-cn` has one `-` and a two-character
region; `toLocale` gives `zh_hans_CN`, whose tag form is `zh-hans_cn`, and
`toLocale` of that is `zh_Hans_cn`.  It also fails for the two-character region
made of twice U+00E9, which is four bytes long. -/
theorem toLocale_idempotence_counterexample :
    (toLocale latin1 (str "zh_hans-cn") false = str "zh_hans_CN" ∧
      toLanguage latin1 (str "zh_hans_CN") = str "zh-hans_cn" ∧
      toLocale latin1 (str "zh-hans_cn") false = str "zh_Hans_cn" ∧
      toLocale latin1 (toLanguage latin1 (toLocale latin1 (str "zh_hans-cn") false)) false
        ≠ toLocale latin1 (str "zh_hans-cn") false) ∧
    toLocale latin1 (toLanguage latin1
        (toLocale latin1 (str "en-" ++ encodeRune 0xE9 ++ encodeRune 0xE9) false)) false
      ≠ toLocale latin1 (str "en-" ++ encodeRune 0xE9 ++ encodeRune 0xE9) false := by
  decide

/-- C11, amended: for every ASCII tag `language-region` whose language part (the
text before the first `-`) holds no `_`, in particular for every such tag with
a two-character region,
`toLocale(toLanguage(toLocale(t, false)), false) = toLocale(t, false)`. -/
theorem toLocale_toLanguage_toLocale (u : CaseTables) (a b : GoString) (ha : 45 ∉ a)
    (h95 : 95 ∉ a) (hsa : IsASCII a) (hsb : IsASCII b) :
    toLocale u (toLanguage u (toLocale u (a ++ 45 :: b) false)) false =
      toLocale u (a ++ 45 :: b) false := by
  rw [toLanguage_toLocale_append u a b ha h95 hsa hsb, toLocale_lower_append u a b ha hsa hsb]

/-- Witness of C11: the tag `en-us`. -/
theorem toLocale_toLanguage_toLocale_witness :
    (45 ∉ str "en" ∧ 95 ∉ str "en" ∧ IsASCII (str "en") ∧ IsASCII (str "us")) ∧
    str "en" ++ 45 :: str "us" = str "en-us" ∧
    toLocale latin1 (str "en-us") false = str "en_US" ∧
    toLocale latin1 (toLanguage latin1 (toLocale latin1 (str "en" ++ 45 :: str "us") false))
        false = toLocale latin1 (str "en" ++ 45 :: str "us") false :=
  ⟨⟨by decide, by decide, by decide, by decide⟩, by decide, by decide,
   toLocale_toLanguage_toLocale latin1 (str "en") (str "us")
     (by decide) (by decide) (by decide) (by decide)⟩

/-- C12 as stated fails: the lower-case tag `sr-latn` has a four-character region
and `toLanguage(toLocale("sr-latn", false))` is `sr-latn` again (through
`sr_Latn`); the lower-case tag `zh_hans-cn` has a two-character region and the
round trip gives `zh-hans_cn`. -/
theorem toLanguage_inverse_counterexample :
    (toLocale latin1 (str "sr-latn") false = str "sr_Latn" ∧
      toLanguage latin1 (toLocale latin1 (str "sr-latn") false) = str "sr-latn" ∧
      ((str "sr-latn").drop 3).length = 4 ∧
      ¬ (toLanguage latin1 (toLocale latin1 (str "sr-latn") false) = str "sr-latn" ↔
          ((str "sr-latn").drop 3).length = 2)) ∧
    (toLanguage latin1 (toLocale latin1 (str "zh_hans-cn") false) = str "zh-hans_cn" ∧
      ((str "zh_hans-cn").drop 8).length = 2 ∧
      ¬ (toLanguage latin1 (toLocale latin1 (str "zh_hans-cn") false) = str "zh_hans-cn" ↔
          ((str "zh_hans-cn").drop 8).length = 2)) := by
  decide

/-- C12, amended: for every lower-case ASCII tag `t` that holds no `_`,
`toLanguage(toLocale(t, false)) = t`, whatever the length of its region; in
particular the script-suffixed tag `sr-latn` is returned by the round trip. -/
theorem toLanguage_inverts_toLocale (u : CaseTables) (t : GoString) (hl : IsLowerASCII t)
    (h95 : 95 ∉ t) : toLanguage u (toLocale u t false) = t := by
  rw [toLanguage_toLocale u t (IsASCII_of_lower t hl) h95,
    toLanguage_ascii_of_not_mem u t (IsASCII_of_lower t hl) h95, map_lower_of_lower u t hl]

/-- Witness of C12: the tag `sr-latn`. -/
theorem toLanguage_inverts_toLocale_witness :
    (IsLowerASCII (str "sr-latn") ∧ 95 ∉ str "sr-latn") ∧
    toLanguage latin1 (toLocale latin1 (str "sr-latn") false) = str "sr-latn" :=
  ⟨⟨by decide, by decide⟩,
   toLanguage_inverts_toLocale latin1 (str "sr-latn") (by decide) (by decide)⟩

/-- C13, the defect: for a tag `language-region` whose region is longer than 2
bytes, `toLocale(tag, false)` is the lower-cased language part, `_`, the upper
case of `string(b)` for the first *byte* `b` of the region, and the lower case
of the region from its second byte on.  When the first byte is ASCII this is
the region with its first character upper-cased and the others lower-cased;
when the first character is longer than one byte it is not. -/
theorem toLocale_long_region (u : CaseTables) (a b : GoString) (x : Nat) (ha : 45 ∉ a)
    (hb : 2 ≤ b.length) :
    toLocale u (a ++ 45 :: x :: b) false =
      stringsToLower u a ++ [95] ++ stringsToUpper u (encodeRune x) ++ stringsToLower u b ∧
    (x < 128 →
      toLocale u (a ++ 45 :: x :: b) false =
        stringsToLower u a ++ [95] ++ [unicodeToUpper u x] ++ stringsToLower u b) := by
  refine ⟨toLocale_append_cons u a b x ha hb, ?_⟩
  intro hx
  have he : encodeRune x = [x] := by simp [encodeRune, hx]
  have hux : stringsToUpper u [x] = [unicodeToUpper u x] := by
    rw [stringsToUpper_ascii u [x] (by simpa [IsASCII] using hx)]
    rfl
  rw [toLocale_append_cons u a b x ha hb, he, hux]

/-- Witness of C13: `toLocale("sr-latn", false) = "sr_Latn"`; for the tag `sr-`,
U+00E9, `ab` the result is `sr_`, U+00C3, U+FFFD, `ab`, not `sr_`, U+00C9,
`ab`. -/
theorem toLocale_long_region_witness :
    (45 ∉ str "sr" ∧ 2 ≤ (str "atn").length) ∧
    str "sr" ++ 45 :: 108 :: str "atn" = str "sr-latn" ∧
    toLocale latin1 (str "sr-latn") false = str "sr_Latn" ∧
    (toLocale latin1 (str "sr-" ++ encodeRune 0xE9 ++ str "ab") false
        = str "sr_" ++ encodeRune 0xC3 ++ encodeRune 0xFFFD ++ str "ab" ∧
      toLocale latin1 (str "sr-" ++ encodeRune 0xE9 ++ str "ab") false
        ≠ stringsToLower latin1 (str "sr") ++ [95] ++ stringsToUpper latin1 (encodeRune 0xE9)
            ++ stringsToLower latin1 (str "ab") ∧
      stringsToLower latin1 (str "sr") ++ [95] ++ stringsToUpper latin1 (encodeRune 0xE9)
            ++ stringsToLower latin1 (str "ab")
        = str "sr_" ++ encodeRune 0xC9 ++ str "ab") ∧
    (toLocale latin1 (str "sr" ++ 45 :: 108 :: str "atn") false =
        stringsToLower latin1 (str "sr") ++ [95] ++ stringsToUpper latin1 (encodeRune 108)
          ++ stringsToLower latin1 (str "atn") ∧
      (108 < 128 →
        toLocale latin1 (str "sr" ++ 45 :: 108 :: str "atn") false =
          stringsToLower latin1 (str "sr") ++ [95] ++ [unicodeToUpper latin1 108]
            ++ stringsToLower latin1 (str "atn"))) :=
  ⟨⟨by decide, by decide⟩, by decide, by decide, ⟨by decide, by decide, by decide⟩,
   toLocale_long_region latin1 (str "sr") (str "atn") 108 (by decide) (by decide)⟩

/-- C14: for a tag `language-region` (split at the first `-`) whose region is at
most 2 bytes long, `toLocale(tag, false)` is the lower-cased language part, `_`
and the upper-cased region; for every tag `language-region`,
`toLocale(tag, true)` is the lower-cased language part, `_` and the lower-cased
region. -/
theorem toLocale_short_region (u : CaseTables) (a b : GoString) (ha : 45 ∉ a) :
    (b.length ≤ 2 →
      toLocale u (a ++ 45 :: b) false = stringsToLower u a ++ [95] ++ stringsToUpper u b) ∧
    toLocale u (a ++ 45 :: b) true = stringsToLower u a ++ [95] ++ stringsToLower u b := by
  refine ⟨?_, by rw [toLocale_append_lower u a b ha]; simp⟩
  intro hb
  have hl : ¬ b.length > 2 := by omega
  rw [toLocale_append u a b ha, if_neg hl]

/-- Witness of C14: `toLocale("en-us", false) = "en_US"` and
`toLocale("en-US", true) = "en_us"`. -/
theorem toLocale_short_region_witness :
    45 ∉ str "en" ∧
    (toLocale latin1 (str "en-us") false = str "en_US" ∧
      toLocale latin1 (str "en-US") true = str "en_us") ∧
    ((str "us").length ≤ 2 →
      toLocale latin1 (str "en" ++ 45 :: str "us") false =
        stringsToLower latin1 (str "en") ++ [95] ++ stringsToUpper latin1 (str "us")) ∧
    toLocale latin1 (str "en" ++ 45 :: str "us") true =
      stringsToLower latin1 (str "en") ++ [95] ++ stringsToLower latin1 (str "us") :=
  ⟨by decide, ⟨by decide, by decide⟩,
   toLocale_short_region latin1 (str "en") (str "us") (by decide)⟩

/-- C15: `toLanguage` computes what the specification says of `localeToTag`: when
the locale holds a `_`, the lower-cased part before the first `_`, then `-`, then
the lower-cased part after it; otherwise the lower-cased locale. -/
theorem toLanguage_eq_localeToTag (u : CaseTables) (locale : GoString) :
    toLanguage u locale = localeToTag u locale := by
  unfold localeToTag
  split_ifs with h
  · obtain ⟨a, b, rfl, ha⟩ := exists_split_of_mem 95 locale h
    rw [toLanguage_append u a b ha, takeWhile_append_cons a b 95 ha,
      dropWhile_append_cons a b 95 ha]
    simp
  · exact toLanguage_of_not_mem u locale h

/-- Instance of C15: `toLanguage("en_US") = "en-us"`. -/
theorem toLanguage_eq_localeToTag_witness :
    toLanguage latin1 (str "en_US") = str "en-us" ∧
    localeToTag latin1 (str "en_US") = str "en-us" ∧
    toLanguage latin1 (str "en_US") = localeToTag latin1 (str "en_US") :=
  ⟨by decide, by decide, toLanguage_eq_localeToTag latin1 (str "en_US")⟩

/-! ## Options, cookie contents, redirect decision, engine locale (C16-C20) -/

/-- C16: `prepareOptions` takes each of `Domain`, `Directory`, `DefaultLang`,
`CookieName`, `Parameter` from the first element of the options list when the
value there is non-empty, and otherwise sets the default (`martini`, `locale`,
`zh_CN`, `_language`, `_language`); with an empty list every field has its
default; none of these fields is ever empty in the result. -/
theorem prepareOptions_defaults (options : List Options) :
    ((prepareOptions options).Domain =
        (if (options.headD {}).Domain = [] then str "martini" else (options.headD {}).Domain) ∧
      (prepareOptions options).Directory =
        (if (options.headD {}).Directory = [] then str "locale"
          else (options.headD {}).Directory) ∧
      (prepareOptions options).DefaultLang =
        (if (options.headD {}).DefaultLang = [] then str "zh_CN"
          else (options.headD {}).DefaultLang) ∧
      (prepareOptions options).CookieName =
        (if (options.headD {}).CookieName = [] then str "_language"
          else (options.headD {}).CookieName) ∧
      (prepareOptions options).Parameter =
        (if (options.headD {}).Parameter = [] then str "_language"
          else (options.headD {}).Parameter)) ∧
    ((prepareOptions options).Domain ≠ [] ∧ (prepareOptions options).Directory ≠ [] ∧
      (prepareOptions options).DefaultLang ≠ [] ∧ (prepareOptions options).CookieName ≠ [] ∧
      (prepareOptions options).Parameter ≠ []) ∧
    prepareOptions [] =
      { Domain := str "martini", Directory := str "locale", ZipData := [],
        DefaultLang := str "zh_CN", SubURL := [], CookieName := str "_language",
        Parameter := str "_language", Redirect := true, TmplName := str "trans" } := by
  have key : ∀ (v d : GoString), d ≠ [] →
      ((if v.length = 0 then d else v) = (if v = [] then d else v)) ∧
      (if v.length = 0 then d else v) ≠ [] := by
    intro v d hd
    cases v with
    | nil => simp [hd]
    | cons x v => simp
  have h1 := key (options.headD {}).Domain (str "martini") (by decide)
  have h2 := key (options.headD {}).Directory (str "locale") (by decide)
  have h3 := key (options.headD {}).DefaultLang (str "zh_CN") (by decide)
  have h4 := key (options.headD {}).CookieName (str "_language") (by decide)
  have h5 := key (options.headD {}).Parameter (str "_language") (by decide)
  refine ⟨⟨?_, ?_, ?_, ?_, ?_⟩, ⟨?_, ?_, ?_, ?_, ?_⟩, by decide⟩
  · cases options <;> exact h1.1
  · cases options <;> exact h2.1
  · cases options <;> exact h3.1
  · cases options <;> exact h4.1
  · cases options <;> exact h5.1
  · cases options <;> exact h1.2
  · cases options <;> exact h2.2
  · cases options <;> exact h3.2
  · cases options <;> exact h4.2
  · cases options <;> exact h5.2

/-- C17, the defect: the redirect toggle cannot be switched off, and yet not every
request with a non-empty language parameter is redirected.  `prepareOptions`
returns `Redirect = true` for every options list, the handler behaves as if the
first element had `Redirect = true` whatever it holds, and a request with a
non-empty language parameter passes the test of line 136; with
`RequestURI = path?query` it is redirected to the sub-path followed by `path`,
with no `?` in `RequestURI` line 137 panics and no redirect is issued. -/
theorem redirect_cannot_be_disabled (u : CaseTables) (options : List Options) (req : Request)
    (g : Gettext) (hp : req.FormValue (prepareOptions options).Parameter ≠ []) :
    (prepareOptions options).Redirect = true ∧
    (∀ (o : Options) (rest : List Options), options = o :: rest →
      I18n u ({ o with Redirect := false } :: rest) req g = I18n u options req g ∧
      I18n u ({ o with Redirect := true } :: rest) req g = I18n u options req g) ∧
    ((prepareOptions options).Redirect && (resolve (prepareOptions options) req).isNeedRedir)
      = true ∧
    (∀ path query : GoString, req.RequestURI = path ++ 63 :: query → 63 ∉ path →
      (I18n u options req g).redirects = [((prepareOptions options).SubURL ++ path, 302)]) ∧
    (63 ∉ req.RequestURI →
      (I18n u options req g).redirects = [] ∧ (I18n u options req g).panicked = true) := by
  refine ⟨prepareOptions_Redirect options, ?_, ?_, ?_,
    fun hq => I18n_of_param_noquery u options req g hp hq⟩
  · intro o rest ho
    subst ho
    simp only [I18n, prepareOptions_Redirect_irrelevant]
    exact ⟨trivial, trivial⟩
  · rw [prepareOptions_Redirect, resolve_isNeedRedir]
    simp [hp]
  · intro path query hq hpath
    exact (I18n_of_param_query u options req g path query hp hq hpath).1

/-- Witness of C17: with `Options{Parameter: "lang", Redirect: false}` the request
`GET /foobar?lang=en-us` is redirected to `/foobar`, and the request
`POST /foobar` with `lang=en-us` in its form body is not redirected: it ends in
a panic. -/
theorem redirect_cannot_be_disabled_witness :
    (reqParamQuery.FormValue (prepareOptions optNoRedirect).Parameter ≠ [] ∧
      reqParamForm.FormValue (prepareOptions optNoRedirect).Parameter ≠ []) ∧
    (optNoRedirect.headD {}).Redirect = false ∧
    (I18n latin1 optNoRedirect reqParamQuery []).redirects = [(str "/foobar", 302)] ∧
    (prepareOptions optNoRedirect).Redirect = true ∧
    (63 ∉ reqParamForm.RequestURI ∧
      (I18n latin1 optNoRedirect reqParamForm []).redirects = [] ∧
      (I18n latin1 optNoRedirect reqParamForm []).panicked = true) :=
  ⟨⟨by decide, by decide⟩, by decide, by decide,
   (redirect_cannot_be_disabled latin1 optNoRedirect reqParamQuery [] (by decide)).1,
   by decide,
   (redirect_cannot_be_disabled latin1 optNoRedirect reqParamForm [] (by decide)).2.2.2.2
     (by decide)⟩

/-- C18: a cookie written by the handler has the configured cookie name, the
percent-encoding of the published language (`toLanguage` of the chosen tag) as
value, the max-age `2^31 - 1 = 2147483647`, and the path `/` followed by the
configured sub-path without one trailing and one leading `/`: the path is `/`
when no sub-path is configured. -/
theorem cookie_contents (u : CaseTables) (options : List Options) (req : Request)
    (g : Gettext) (c : Cookie) (hc : c ∈ (I18n u options req g).cookies) :
    c.Name = (prepareOptions options).CookieName ∧
    c.Value = QueryEscape (toLanguage u (resolve (prepareOptions options) req).lang) ∧
    (I18n u options req g).mapped =
      [{ Lang := toLanguage u (resolve (prepareOptions options) req).lang }] ∧
    c.MaxAge = 2 ^ 31 - 1 ∧ c.MaxAge = 2147483647 ∧
    c.Path = 47 :: trimPrefixSlash (trimSuffixSlash (options.headD {}).SubURL) ∧
    ((options.headD {}).SubURL = [] → c.Path = [47]) ∧
    c.Domain = [] ∧ c.Secure = false ∧ c.HttpOnly = false := by
  rw [I18n_cookies] at hc
  split_ifs at hc
  · simp at hc
  · rw [List.mem_singleton.mp hc]
    have hs : (prepareOptions options).SubURL = trimSuffixSlash (options.headD {}).SubURL := by
      cases options <;> rfl
    refine ⟨rfl, rfl, I18n_mapped u options req g, rfl, rfl, ?_, ?_, rfl, rfl, rfl⟩
    · simp only [languageCookie, hs]
    · intro h0
      simp only [languageCookie, hs, h0]
      rfl

/-- Witness of C18: the cookie set for `GET /foobar` with `Accept-Language: en-US`
under default options, and the path of the cookie for the sub-path `/app/`. -/
theorem cookie_contents_witness :
    (I18n latin1 [] reqHeader []).cookies =
      [{ Name := str "_language", Value := str "en-us", MaxAge := 2147483647,
         Path := str "/" }] ∧
    (I18n latin1 [{ SubURL := str "/app/" }] reqHeader []).cookies.map (fun c => c.Path)
      = [str "/app"] ∧
    ((languageCookie (prepareOptions []) (str "en-us")).Name = (prepareOptions []).CookieName ∧
      (languageCookie (prepareOptions []) (str "en-us")).Value
        = QueryEscape (toLanguage latin1 (resolve (prepareOptions []) reqHeader).lang) ∧
      (I18n latin1 [] reqHeader []).mapped
        = [{ Lang := toLanguage latin1 (resolve (prepareOptions []) reqHeader).lang }] ∧
      (languageCookie (prepareOptions []) (str "en-us")).MaxAge = 2 ^ 31 - 1 ∧
      (languageCookie (prepareOptions []) (str "en-us")).MaxAge = 2147483647 ∧
      (languageCookie (prepareOptions []) (str "en-us")).Path
        = 47 :: trimPrefixSlash (trimSuffixSlash (([] : List Options).headD {}).SubURL) ∧
      ((([] : List Options).headD {}).SubURL = [] →
        (languageCookie (prepareOptions []) (str "en-us")).Path = [47]) ∧
      (languageCookie (prepareOptions []) (str "en-us")).Domain = [] ∧
      (languageCookie (prepareOptions []) (str "en-us")).Secure = false ∧
      (languageCookie (prepareOptions []) (str "en-us")).HttpOnly = false) :=
  ⟨by decide, by decide,
   cookie_contents latin1 [] reqHeader [] (languageCookie (prepareOptions []) (str "en-us"))
     (by decide)⟩

/-- C19: at the redirect decision `isNeedRedir` is true exactly when the language
parameter is non-empty; when the tag comes from the cookie, the header or the
default no redirect is issued; and the default branch (lines 125-128) is never
entered with `isNeedRedir` set, so its `isNeedRedir = false` changes nothing. -/
theorem redirect_iff_parameter (u : CaseTables) (options : List Options) (req : Request)
    (g : Gettext) :
    ((resolve (prepareOptions options) req).isNeedRedir = true ↔
      req.FormValue (prepareOptions options).Parameter ≠ []) ∧
    (chosenSource (prepareOptions options) req ≠ Source.Parameter →
      (I18n u options req g).redirects = [] ∧ (I18n u options req g).panicked = false) ∧
    ((I18n u options req g).redirects ≠ [] →
      req.FormValue (prepareOptions options).Parameter ≠ []) ∧
    (resolve (prepareOptions options) req =
      if (resolveBeforeDefault (prepareOptions options) req).lang.length = 0 then
        { resolveBeforeDefault (prepareOptions options) req with
            lang := (prepareOptions options).DefaultLang, isNeedRedir := false }
      else resolveBeforeDefault (prepareOptions options) req) ∧
    ((resolveBeforeDefault (prepareOptions options) req).lang.length = 0 →
      (resolveBeforeDefault (prepareOptions options) req).isNeedRedir = false) := by
  refine ⟨?_, ?_, ?_, resolve_eq_default_step _ _, ?_⟩
  · rw [resolve_isNeedRedir]
    simp
  · intro hs
    have hp : req.FormValue (prepareOptions options).Parameter = [] := by
      by_contra h
      exact hs ((chosenSource_eq_parameter _ _).mpr h)
    exact I18n_of_noparam u options req g hp
  · intro hr hp
    exact hr (I18n_of_noparam u options req g hp).1
  · intro hl
    rw [resolveBeforeDefault_isNeedRedir]
    by_cases hp : req.FormValue (prepareOptions options).Parameter = []
    · simp [hp]
    · rw [resolveBeforeDefault_of_param _ _ hp] at hl
      exact absurd (List.eq_nil_of_length_eq_zero hl) hp

/-- Instances of C19: the request with cookie, the request with header and the
empty request are not redirected; `GET /foobar?lang=en-us` is. -/
theorem redirect_iff_parameter_witness :
    (I18n latin1 optLang reqCookie []).redirects = [] ∧
    (I18n latin1 optLang reqHeader []).redirects = [] ∧
    (I18n latin1 optLang emptyRequest []).redirects = [] ∧
    (I18n latin1 optLang reqParamQuery []).redirects ≠ [] ∧
    ((resolve (prepareOptions optLang) reqParamQuery).isNeedRedir = true ↔
      reqParamQuery.FormValue (prepareOptions optLang).Parameter ≠ []) :=
  ⟨by decide, by decide, by decide, by decide,
   (redirect_iff_parameter latin1 optLang reqParamQuery []).1⟩

/-- C20, the defect: the locale given to gettext is not stable across the cookie
round trip for the built-in default.  Under default options a request without
parameter, cookie and header resolves to `zh_CN`, gives gettext the locale
`zh_cn` and sets the cookie `_language=zh-cn`; the follow-up request with that
cookie gives gettext the locale `zh_CN`. -/
theorem engine_locale_default_evaluated :
    (resolve (prepareOptions []) emptyRequest).lang = str "zh_CN" ∧
    (I18n latin1 [] emptyRequest []).gettext.getLast?
      = some (GettextCall.SetLocale (str "zh_cn")) ∧
    (I18n latin1 [] emptyRequest []).cookies.map (fun c => (c.Name, c.Value))
      = [(str "_language", str "zh-cn")] ∧
    reqFollowDefault.Cookie (prepareOptions []).CookieName = some (str "zh-cn") ∧
    (I18n latin1 [] reqFollowDefault []).gettext.getLast?
      = some (GettextCall.SetLocale (str "zh_CN")) ∧
    toLocale latin1 (toLanguage latin1 (str "zh_CN")) false = str "zh_CN" ∧
    toLocale latin1 (str "zh_CN") false = str "zh_cn" ∧
    toLocale latin1 (toLanguage latin1 (str "zh_CN")) false
      ≠ toLocale latin1 (str "zh_CN") false := by
  decide

end i18n
